import Mathlib

/-!
Verification of the `nova` foundation components: a shallow embedding in
Lean 4 of `src/foundation/pipeline.ts` (the async middleware pipeline) and
`src/foundation/container.ts` (the IoC resolution container), together with
theorems settling the specified behavioural claims.

The embedding follows the TypeScript source line by line.  JavaScript
features are modelled as follows:

* thrown exceptions / rejected promises become explicit error results;
* the shared mutable `index` of `thenReturn`'s dispatcher becomes a
  threaded `Int` state (errors carry the state across, as JS exceptions
  leave prior mutations in place);
* object identity is modelled by allocation numbers threaded through
  construction, so "the exact same object reference" means equality of
  the allocated value (which records its allocation number);
* unbounded recursion (`make` / `build`) is modelled with an explicit
  fuel parameter; `Res.fuelOut` is the embedding's artifact for a run
  that needs more fuel and corresponds to no JS outcome of a
  terminating run.
-/

set_option autoImplicit false

namespace Nova

/- ### Pipeline (`src/foundation/pipeline.ts`) -/

/-- Errors that can surface from a pipeline run.
`doubleInvocation` is `new Error('Pipeline: next() called multiple times')`
(pipeline.ts line 102); `classWithoutNew` is the JS `TypeError: Class
constructor ... cannot be invoked without 'new'` raised when the catch
branch of the dispatcher (line 118) calls a class-shaped pipe as a plain
function; `user n` stands for an arbitrary error raised by a pipe body,
tagged by a number so that error identity ("same kind and message") is
equality of tags. -/
inductive PErr where
  | doubleInvocation
  | classWithoutNew
  | user (n : Nat)
  deriving DecidableEq, Repr

/-- The monad of a pipeline run: a computation reading and updating the
dispatcher's shared mutable `index` (an `Int`, initially `-1`), producing
either a value or an error.  Errors carry the state across, exactly as a
JS exception leaves prior mutations of `index` in place. -/
def PM (T : Type) : Type := Int → Except PErr T × Int

/-- A pipe as dispatched by `thenReturn` (pipeline.ts line 38): either a
function-shaped pipe (an arrow / async function: not constructible, so
`new pipe()` throws, which the dispatcher catches before calling it
directly), or a class-shaped pipe (constructible; its fresh instance's
`handle` runs inside the dispatcher's `try`, and calling it as a plain
function throws `TypeError`).  The body receives the current payload and
the continuation `next`. -/
inductive Pipe (T : Type) where
  | func (f : T → (T → PM T) → PM T)
  | cls (h : T → (T → PM T) → PM T)

/-- The dispatcher of `thenReturn` (pipeline.ts lines 100-120).

`dispatch rest i v` corresponds to the source's `dispatch(i, value)` with
`rest = pipes.drop i`; since `dispatch` is entered only with `0 ≤ i ≤
pipes.length`, the source's `i === this.pipes.length` test is `rest = []`
and `this.pipes[i]` is the head of `rest`.  Step by step:

* `if (i <= index) throw new Error('Pipeline: next() called multiple times')`;
* `index = i`;
* `if (i === this.pipes.length) return value`;
* `const next = (val) => dispatch(i + 1, val)`;
* `try { const instance = new pipe(); return await instance.handle(value, next) }
   catch (_e) { return await pipe(value, next) }` — for a class-shaped
  pipe the `try` body runs `handle` and any error it raises (or that
  bubbles back through its `await` of `next`) is caught, upon which the
  fallback call of the class as a function throws `classWithoutNew`; for
  a function-shaped pipe the construction attempt throws at once, so the
  body runs in the `catch` branch and its errors propagate uncaught. -/
def dispatch {T : Type} : List (Pipe T) → Nat → T → PM T
  | rest, i, v => fun idx =>
    if (i : Int) ≤ idx then (.error .doubleInvocation, idx)
    else
      match rest with
      | [] => (.ok v, (i : Int))
      | p :: rest' =>
        let next : T → PM T := fun val => dispatch rest' (i + 1) val
        match p with
        | .cls h =>
          match h v next (i : Int) with
          | (.ok r, idx') => (.ok r, idx')
          | (.error _, idx') => (.error .classWithoutNew, idx')
        | .func f => f v next (i : Int)

/-- The pipeline object: the declared pipes and the payload set by `send`
(`none` before any `send`, as the field is only definitely assigned by
`send`). -/
structure Pipeline (T : Type) where
  pipes : List (Pipe T)
  payload : Option T

/-- `new Pipeline()` (pipeline.ts line 49): no pipes, no payload. -/
def Pipeline.create {T : Type} : Pipeline T := ⟨[], none⟩

/-- `send` (pipeline.ts line 66): sets the payload, returns `this`. -/
def Pipeline.send {T : Type} (p : Pipeline T) (v : T) : Pipeline T :=
  { p with payload := some v }

/-- `through` (pipeline.ts line 77): replaces the pipe list, returns `this`. -/
def Pipeline.through {T : Type} (p : Pipeline T) (ps : List (Pipe T)) : Pipeline T :=
  { p with pipes := ps }

/-- `thenReturn` (pipeline.ts line 90): runs `dispatch(0, this.payload)`
with the shared `index` initialised to `-1`, and yields the settled
outcome of the returned promise. -/
def Pipeline.thenReturn {T : Type} (p : Pipeline T) : Option (Except PErr T) :=
  p.payload.map fun v => (dispatch p.pipes 0 v (-1)).1

/-- A pipe body that transforms the payload by `g` and forwards it, i.e.
`async (val, next) => next(g(val))` / a class whose `handle` does the same. -/
def transformBody {T : Type} (g : T → T) : T → (T → PM T) → PM T :=
  fun v next => next (g v)

/-- A pipe body that raises error `e` without calling its continuation:
`async () => { throw e }`. -/
def raiseBody {T : Type} (e : PErr) : T → (T → PM T) → PM T :=
  fun _v _next => fun idx => (.error e, idx)

/-- A pipe body that awaits its continuation and then calls it a second
time, as in the repository's own test:
`async (payload, next) => { await next(payload); return next(payload); }`. -/
def twiceBody {T : Type} : T → (T → PM T) → PM T :=
  fun v next => fun idx =>
    match next v idx with
    | (.ok _, idx') => next v idx'
    | e => e

/- ### Container (`src/foundation/container.ts`) -/

/-- An abstract service identifier (container.ts line 25):
`string | symbol | (new (...args) => T) | (() => T)`.  Classes and factory
functions are referenced by a number indexing into the ambient `Env`;
JS `Map` keys are compared by identity, which equality of these references
models.  A symbol carries its description (which feeds its `toString()`,
`"Symbol(desc)"`) and a number, so that two symbols created with the same
description are still distinct identities. -/
inductive Ident where
  | str (s : String)
  | sym (n : Nat) (desc : String)
  | cls (c : Nat)
  | fn (f : Nat)
  deriving DecidableEq, Repr

/-- A runtime value held by the container: a primitive (as produced by a
factory such as `() => 'hello'`), an object constructed by `new C(args)`
(recording the class, a fresh allocation number — the model of the
object's reference identity — and the constructor arguments), or a fresh
object allocated by a factory body. -/
inductive Value where
  | prim (s : String)
  | obj (cls : Nat) (alloc : Nat) (args : List Value)
  | fac (alloc : Nat)

mutual

/-- Equality of values is decidable (the nested `List Value` keeps the
instance from being derived automatically). -/
def Value.decEq : (a b : Value) → Decidable (a = b)
  | .prim s, .prim t =>
    if h : s = t then isTrue (by rw [h])
    else isFalse (fun hh => h (Value.prim.inj hh))
  | .obj c1 a1 l1, .obj c2 a2 l2 =>
    if h1 : c1 = c2 then
      if h2 : a1 = a2 then
        match Value.decEqList l1 l2 with
        | isTrue h3 => isTrue (by rw [h1, h2, h3])
        | isFalse h3 => isFalse (fun hh => h3 (Value.obj.inj hh).2.2)
      else isFalse (fun hh => h2 (Value.obj.inj hh).2.1)
    else isFalse (fun hh => h1 (Value.obj.inj hh).1)
  | .fac a1, .fac a2 =>
    if h : a1 = a2 then isTrue (by rw [h])
    else isFalse (fun hh => h (Value.fac.inj hh))
  | .prim _, .obj _ _ _ => isFalse (by intro h; exact Value.noConfusion h)
  | .prim _, .fac _ => isFalse (by intro h; exact Value.noConfusion h)
  | .obj _ _ _, .prim _ => isFalse (by intro h; exact Value.noConfusion h)
  | .obj _ _ _, .fac _ => isFalse (by intro h; exact Value.noConfusion h)
  | .fac _, .prim _ => isFalse (by intro h; exact Value.noConfusion h)
  | .fac _, .obj _ _ _ => isFalse (by intro h; exact Value.noConfusion h)

/-- Decidable equality of lists of values. -/
def Value.decEqList : (a b : List Value) → Decidable (a = b)
  | [], [] => isTrue rfl
  | [], _ :: _ => isFalse (by intro h; exact List.noConfusion h)
  | _ :: _, [] => isFalse (by intro h; exact List.noConfusion h)
  | a :: as, b :: bs =>
    match Value.decEq a b, Value.decEqList as bs with
    | isTrue h1, isTrue h2 => isTrue (by rw [h1, h2])
    | isFalse h1, _ => isFalse (fun hh => h1 (List.cons.inj hh).1)
    | _, isFalse h2 => isFalse (fun hh => h2 (List.cons.inj hh).2)

end

instance : DecidableEq Value := Value.decEq

/-- A binding record (container.ts line 30): the bound concrete `value`
and its `shared` flag.  The TypeScript type restricts `value` to a factory
or a class, but the runtime accepts any identifier, which is what the
`make` alias path (line 143) relies on, so the model stores an `Ident`. -/
structure Binding where
  value : Ident
  shared : Bool
  deriving DecidableEq, Repr

/-- A class declaration of the embedded program: its `name` (used in the
resolution error message) and the source text returned by its
`toString()` (scanned by `getParamNames`). -/
structure ClassDef where
  name : String
  src : String
  deriving DecidableEq, Repr

/-- The ambient program: what each class reference and each factory
reference denotes.  A factory body is modelled as a function of the
allocation counter returning its value and the updated counter, which
covers both factories returning a shared value and factories allocating
a fresh object per call. -/
structure Env where
  classes : Nat → ClassDef
  factories : Nat → Nat → Value × Nat

/-- Resolution errors thrown by the container.
`missingDep name index owner` is
`new Error('Cannot resolve dependency: "name" at index i in Owner')`
(container.ts line 115); `notAConstructor` is the JS
`TypeError: ... is not a constructor` raised by `new concrete(...)` when
the concrete is not constructible (e.g. an unbound string identifier that
reached `build`). -/
inductive CErr where
  | missingDep (name : String) (index : Nat) (owner : String)
  | notAConstructor
  deriving DecidableEq, Repr

/-- Is the error the `Cannot resolve dependency` kind? -/
def CErr.isMissingDep : CErr → Bool
  | .missingDep _ _ _ => true
  | .notAConstructor => false

/-- Lookup in an association list modelling a JS `Map` (first entry with
the given key). -/
def mget {β : Type} : List (Ident × β) → Ident → Option β
  | [], _ => none
  | (k', v') :: t, k => if k' = k then some v' else mget t k

/-- `Map.prototype.set`: replace the entry for the key if present,
otherwise append a new entry. -/
def mset {β : Type} : List (Ident × β) → Ident → β → List (Ident × β)
  | [], k, v => [(k, v)]
  | (k', v') :: t, k, v => if k' = k then (k, v) :: t else (k', v') :: mset t k v

/-- `Set.prototype.add`: append the element if absent. -/
def sadd (s : List Ident) (x : Ident) : List Ident :=
  if x ∈ s then s else s ++ [x]

/-- The mutable state of a `Container` (container.ts lines 44-59):
`resolved`, `bindings`, `instances`, and the `buildStack` that is declared
but never written to. -/
structure Container where
  resolved : List Ident
  bindings : List (Ident × Binding)
  instances : List (Ident × Value)
  buildStack : List Ident
  deriving DecidableEq

/-- `new Container()`: all tables empty. -/
def Container.empty : Container := ⟨[], [], [], []⟩

/-- `bind` (container.ts line 69): `bindings.set(abstract, { value:
concrete, shared: !!shared })`. -/
def Container.bind (c : Container) (abstract : Ident) (concrete : Ident) (shared : Bool) :
    Container :=
  { c with bindings := mset c.bindings abstract ⟨concrete, shared⟩ }

/-- `singleton` (container.ts line 156): `bind(abstract, concrete, true)`. -/
def Container.singletonBind (c : Container) (abstract : Ident) (concrete : Ident) : Container :=
  c.bind abstract concrete true

/-- `instance` (container.ts line 167; `instance` is a reserved word in
Lean): `instances.set(abstract, instance); resolved.add(abstract)`. -/
def Container.instanceReg (c : Container) (abstract : Ident) (v : Value) : Container :=
  { c with instances := mset c.instances abstract v, resolved := sadd c.resolved abstract }

/-- `getConcrete` (container.ts line 179): the binding's value if one
exists, otherwise the abstract itself. -/
def getConcrete (c : Container) (abstract : Ident) : Ident :=
  match mget c.bindings abstract with
  | some b => b.value
  | none => abstract

/-- `isShared` (container.ts line 194): `bindings.get(abstract)?.shared ?? false`. -/
def Container.isShared (c : Container) (abstract : Ident) : Bool :=
  match mget c.bindings abstract with
  | some b => b.shared
  | none => false

/-- `has` (container.ts line 217): `bindings.has(abstract) || instances.has(abstract)`. -/
def Container.has (c : Container) (abstract : Ident) : Bool :=
  (mget c.bindings abstract).isSome || (mget c.instances abstract).isSome

/-- `typeof concrete === 'function'` for an identifier: class and factory
references are functions, strings and symbols are not. -/
def Ident.isFunction : Ident → Bool
  | .cls _ => true
  | .fn _ => true
  | .str _ => false
  | .sym _ _ => false

/-- `isBuildable` (container.ts line 206):
`concrete === abstract || typeof concrete === 'function'`. -/
def isBuildable (concrete abstract : Ident) : Bool :=
  concrete = abstract || concrete.isFunction

/-- Whether the first list of characters is an initial segment of the second. -/
def leadsWith : List Char → List Char → Bool
  | [], _ => true
  | _ :: _, [] => false
  | a :: as, b :: bs => a = b && leadsWith as bs

/-- The suffix of `s` immediately after the first occurrence of `pat`,
or `none` if `pat` does not occur. -/
def subSuffix (pat : List Char) : List Char → Option (List Char)
  | [] => if leadsWith pat [] then some [] else none
  | c :: t => if leadsWith pat (c :: t) then some ((c :: t).drop pat.length)
              else subSuffix pat t

/-- JS `\s` on the whitespace characters that occur in constructor text. -/
def isWs (c : Char) : Bool :=
  c = ' ' || c = '\t' || c = '\n' || c = '\r'

/-- JS `String.prototype.split(',')`: cut the character list at every
comma; splitting the empty string yields `[""]`. -/
def splitCommas : List Char → List String
  | [] => [""]
  | c :: t =>
    if c = ',' then "" :: splitCommas t
    else
      match splitCommas t with
      | [] => [String.mk [c]]
      | piece :: pieces => String.mk (c :: piece.toList) :: pieces

/-- `getParamNames` (container.ts lines 83-90): scan the constructor's
source text with `/constructor\s*[^\(]*\(\s*([^\)]*)\)/`, split the
captured group on `','` and drop empty strings (`filter(Boolean)`).
The regex is decomposed: after the first `"constructor"` the classes
`\s*[^\(]*` together consume exactly the characters up to the first `'('`;
then `\s*` strips leading whitespace of the capture and `([^\)]*)\)`
captures everything up to the next `')'` (which must exist).  The model
commits to the first occurrence of `"constructor"`; on well-formed class
sources (the only inputs used here) this is the occurrence the JS engine
matches.  Note that `split(',')` does not trim, so every parameter after
the first keeps its leading space. -/
def getParamNames (src : String) : List String :=
  match subSuffix "constructor".toList src.toList with
  | none => []
  | some rest =>
    match subSuffix ['('] rest with
    | none => []
    | some afterParen =>
      let body := afterParen.dropWhile isWs
      if body.contains ')' then
        (splitCommas (body.takeWhile (· ≠ ')'))).filter (· ≠ "")
      else []

/-- `parameters[name] !== undefined`: the overrides record, modelled as an
association list from parameter names to values (an absent key and a key
explicitly set to `undefined` are indistinguishable, as in the source's
`!== undefined` test). -/
def pget : List (String × Value) → String → Option Value
  | [], _ => none
  | (k', v') :: t, k => if k' = k then some v' else pget t k

/-- Outcome of a container operation: a normal return or a thrown error,
each carrying the container state and allocation counter at that moment
(a JS exception leaves prior mutations in place), or `fuelOut`, the
embedding's artifact when the fuel is exhausted (corresponding to no
outcome of a terminating JS run). -/
inductive Res (α : Type) where
  | ok (a : α) (c : Container) (alloc : Nat)
  | err (e : CErr) (c : Container) (alloc : Nat)
  | fuelOut
  deriving DecidableEq

/-- The error of a result, if it is one. -/
def Res.errOf {α : Type} : Res α → Option CErr
  | .err e _ _ => some e
  | _ => none

/-- Whether the result is a normal return. -/
def Res.isOk {α : Type} : Res α → Bool
  | .ok _ _ _ => true
  | _ => false

/-- The container state carried by the result. -/
def Res.cstate {α : Type} : Res α → Option Container
  | .ok _ c _ => some c
  | .err _ c _ => some c
  | .fuelOut => none

/-- The entry of the result state's `instances` map at `k`
(`none` if the result is `fuelOut` or the entry is absent). -/
def Res.instAt {α : Type} : Res α → Ident → Option Value
  | .ok _ c _, k => mget c.instances k
  | .err _ c _, k => mget c.instances k
  | .fuelOut, _ => none

/-- The dependency-resolution loop of `build` (container.ts lines
107-116): `paramNames.map((name, index) => ...)`, resolving each
parameter in declaration order — the override under that exact name if
defined, else a recursive `make` of the name when `has(name)` holds, else
`throw new Error('Cannot resolve dependency: "name" at index i in Owner')`.
The JS `map` evaluates its callback left to right and an exception aborts
it, which the sequencing below models.  The recursive `this.make` (at one
less fuel) is passed in as `mk`. -/
def resolveDepsF (mk : Container → Ident → List (String × Value) → Nat → Res Value) :
    Container → List String → Nat → String → List (String × Value) → Nat →
    Res (List Value)
  | c, [], _, _, _, alloc => .ok [] c alloc
  | c, name :: rest, idx, owner, params, alloc =>
    let step : Res Value :=
      match pget params name with
      | some v => .ok v c alloc
      | none =>
        if c.has (.str name) then mk c (.str name) [] alloc
        else .err (.missingDep name idx owner) c alloc
    match step with
    | .ok v c' alloc' =>
      match resolveDepsF mk c' rest (idx + 1) owner params alloc' with
      | .ok vs c'' alloc'' => .ok (v :: vs) c'' alloc''
      | .err e c'' alloc'' => .err e c'' alloc''
      | .fuelOut => .fuelOut
    | .err e c' alloc' => .err e c' alloc'
    | .fuelOut => .fuelOut

/-- `build` (container.ts lines 101-119), with the recursive `this.make`
passed in as `mk`:

* a factory (`typeof concrete === 'function' && !isClass(concrete)`) is
  called with no arguments and its value returned;
* a class has its parameter names extracted from its source text, each
  dependency resolved in order (see `resolveDepsF`), and is then
  instantiated with the resolved arguments — the fresh object records the
  current allocation number, and the counter is bumped;
* a string falls into the constructor branch: `getParamNames` scans the
  string itself (so a string whose text contains `constructor(...)`
  has "dependencies" resolved first!), and then `new concrete(...)`
  throws `TypeError: not a constructor`;
* a symbol is treated the same way, except that its `toString()` is
  `"Symbol(desc)"`: a description that itself contains `constructor(...)`
  has those tokens resolved as dependencies before `new concrete(...)`
  throws. -/
def buildF (env : Env) (mk : Container → Ident → List (String × Value) → Nat → Res Value)
    (c : Container) (concrete : Ident) (params : List (String × Value)) (alloc : Nat) :
    Res Value :=
  match concrete with
  | .fn f =>
    let (v, alloc') := env.factories f alloc
    .ok v c alloc'
  | .cls cid =>
    let cd := env.classes cid
    match resolveDepsF mk c (getParamNames cd.src) 0 cd.name params alloc with
    | .ok deps c' alloc' => .ok (.obj cid alloc' deps) c' (alloc' + 1)
    | .err e c' alloc' => .err e c' alloc'
    | .fuelOut => .fuelOut
  | .str s =>
    match resolveDepsF mk c (getParamNames s) 0 "undefined" params alloc with
    | .ok _ c' alloc' => .err .notAConstructor c' alloc'
    | .err e c' alloc' => .err e c' alloc'
    | .fuelOut => .fuelOut
  | .sym _ desc =>
    match resolveDepsF mk c (getParamNames ("Symbol(" ++ desc ++ ")")) 0 "undefined"
        params alloc with
    | .ok _ c' alloc' => .err .notAConstructor c' alloc'
    | .err e c' alloc' => .err e c' alloc'
    | .fuelOut => .fuelOut

/-- The tail of `make` (container.ts lines 144-146), applied to the
outcome of building or alias-resolving `object`:
`if (this.isShared(abstract)) this.instances.set(abstract, object);
this.resolved.add(abstract); return object` — a thrown error skips both. -/
def makeFinish (abstract : Ident) : Res Value → Res Value
  | .ok object c' alloc' =>
    let c'' := if c'.isShared abstract
               then { c' with instances := mset c'.instances abstract object }
               else c'
    .ok object { c'' with resolved := sadd c''.resolved abstract } alloc'
  | other => other

/-- `make` (container.ts lines 140-147), with explicit fuel (only `make`
consumes fuel; a run of the JS code that terminates is reproduced exactly
by any sufficiently large fuel):

* `if (this.instances.has(abstract)) return this.instances.get(abstract)`;
* `const concrete = this.getConcrete(abstract)`;
* `const object = this.isBuildable(concrete, abstract) ?
     this.build(concrete, parameters) : this.make(concrete)` — note that
  the alias recursion passes no parameters;
* and the `makeFinish` caching/bookkeeping tail. -/
def make (env : Env) : Nat → Container → Ident → List (String × Value) → Nat → Res Value
  | 0, _, _, _, _ => .fuelOut
  | fuel + 1, c, abstract, params, alloc =>
    match mget c.instances abstract with
    | some v => .ok v c alloc
    | none =>
      let concrete := getConcrete c abstract
      if isBuildable concrete abstract then
        makeFinish abstract (buildF env (make env fuel) c concrete params alloc)
      else
        makeFinish abstract (make env fuel c concrete [] alloc)

/-- The allocation counter carried by the result. -/
def Res.allocOf {α : Type} : Res α → Option Nat
  | .ok _ _ a => some a
  | .err _ _ a => some a
  | .fuelOut => none

/- ### Derived notions used by the claims -/

/-- The container state after an operation never loses information that
was present before it: the `bindings` map and the (never written)
`buildStack` are untouched, every pre-existing `instances` entry is still
present with the same value, and the `instances` entry of every
identifier that is not marked shared is exactly unchanged. -/
def Preserved (c c' : Container) : Prop :=
  c'.bindings = c.bindings ∧ c'.buildStack = c.buildStack ∧
  (∀ k v, mget c.instances k = some v → mget c'.instances k = some v) ∧
  (∀ k, c.isShared k = false → mget c'.instances k = mget c.instances k)

/-- `Preserved` for the state carried by a result (vacuous for `fuelOut`). -/
def ResPreserved {α : Type} (c : Container) (r : Res α) : Prop :=
  ∀ c', r.cstate = some c' → Preserved c c'

/-- The allocation counter never decreases: lower bound for the counter
carried by a result. -/
def ResAllocLe {α : Type} (alloc : Nat) (r : Res α) : Prop :=
  ∀ a', r.allocOf = some a' → alloc ≤ a'

/-- Factory bodies never rewind the allocation counter (true of every
JS factory, where the counter is the model's ghost notion of "how many
objects exist so far"). -/
def EnvMono (env : Env) : Prop :=
  ∀ f n, n ≤ (env.factories f n).2

/-- A factory that allocates a fresh object on every call (the model of a
producer that does **not** return a shared value). -/
def FreshFactory (env : Env) (f : Nat) : Prop :=
  ∀ n, ∃ m k, env.factories f n = (.fac m, k) ∧ n ≤ m ∧ m < k

/-- `mk'` agrees with `mk` wherever `mk` does not run out of fuel. -/
def MonoLe (mk mk' : Container → Ident → List (String × Value) → Nat → Res Value) : Prop :=
  ∀ c x p a, mk c x p a ≠ .fuelOut → mk' c x p a = mk c x p a

/-- The parameter tokens `build` extracts for a concrete: the regex scan
of the class's source, of the string itself, or of the symbol's
`toString()` text `"Symbol(desc)"`; a factory never reaches the scan
(closure branch).  Each branch is definitionally the token list appearing
in the corresponding branch of `buildF`. -/
def buildTokens (env : Env) : Ident → List String
  | .cls cid => getParamNames (env.classes cid).src
  | .str s => getParamNames s
  | .sym _ desc => getParamNames ("Symbol(" ++ desc ++ ")")
  | .fn _ => []

/-- The identifiers that resolving `x` against the bindings table `B` can
demand directly: the identifiers equal to the constructor parameter
tokens of the concrete (for a class, or for a string or symbol identifier
that self-resolves and whose own text is scanned), or the bound alias
when the binding's value is itself a plain identifier. -/
def directDeps (env : Env) (B : List (Ident × Binding)) (x : Ident) : List Ident :=
  let concrete := match mget B x with
                  | some b => b.value
                  | none => x
  if isBuildable concrete x then (buildTokens env concrete).map Ident.str
  else [concrete]

/-- The direct-dependency relation of claim C10: `DepEdge env B y x` holds
when resolving `x` can directly demand `y`. -/
def DepEdge (env : Env) (B : List (Ident × Binding)) (y x : Ident) : Prop :=
  y ∈ directDeps env B x

/-- The call orientation of the dependency relation: resolving `y` can
directly invoke `make` on `t`. -/
def Calls (env : Env) (B : List (Ident × Binding)) (y t : Ident) : Prop :=
  DepEdge env B t y

/-- `make` of `x` reaches an outcome with enough fuel, from every
container sharing the bindings table `B`, whatever the overrides and the
allocation counter. -/
def Terminates (env : Env) (B : List (Ident × Binding)) (x : Ident) : Prop :=
  ∀ c params alloc, c.bindings = B →
    ∃ fuel, make env fuel c x params alloc ≠ .fuelOut

/- ### Concrete programs used as claim instances -/

/-- The class and factory catalogue the concrete claim instances live in:

* class 0 `Foo` — no declared constructor;
* class 1 `Baz` — `constructor(bar)`;
* class 2 `T` — `constructor(a, b)` (note the space after the comma);
* class 3 `C` — `constructor(dep, missing)`;
* any other id, `A` — `constructor(a)`;
* factory 0 — `() => 'hello'` (a shared primitive);
* any other factory — allocates a fresh object per call. -/
def cenv : Env :=
  { classes := fun n =>
      match n with
      | 0 => ⟨"Foo", "class Foo \x7b\x7d"⟩
      | 1 => ⟨"Baz", "class Baz \x7b constructor(bar) \x7b\x7d \x7d"⟩
      | 2 => ⟨"T", "class T \x7b constructor(a, b) \x7b\x7d \x7d"⟩
      | 3 => ⟨"C", "class C \x7b constructor(dep, missing) \x7b\x7d \x7d"⟩
      | _ => ⟨"A", "class A \x7b constructor(a) \x7b\x7d \x7d"⟩,
    factories := fun f n =>
      match f with
      | 0 => (.prim "hello", n)
      | _ => (.fac n, n + 1) }

/-- Container with `bind('a', f)` and `bind('b', f)`: both true parameter
names of `class T { constructor(a, b) }` are bound. -/
def cBoundAB : Container :=
  (Container.empty.bind (.str "a") (.fn 0) false).bind (.str "b") (.fn 0) false

/-- Container with `singleton('dep', f)`: the first parameter of
`class C { constructor(dep, missing) }` resolves shared, the second is
unresolvable. -/
def cSharedDep : Container :=
  Container.empty.bind (.str "dep") (.fn 0) true

/-- Container with `singleton('bar', f); bind(Baz, Baz)`: `Baz` itself is
a non-shared binding whose only dependency is shared. -/
def cSharedBar : Container :=
  (Container.empty.bind (.str "bar") (.fn 0) true).bind (.cls 1) (.cls 1) false

/-- Container with `bind('a', A)` where `class A { constructor(a) }`:
resolving `'a'` demands `'a'` again — a dependency cycle. -/
def cCyclic : Container :=
  Container.empty.bind (.str "a") (.cls 4) false

/- ### Properties of the map model -/

theorem mget_mset_self {β : Type} (m : List (Ident × β)) (k : Ident) (v : β) :
    mget (mset m k v) k = some v := by
  induction m with
  | nil => simp [mset, mget]
  | cons p t ih =>
    obtain ⟨k', v'⟩ := p
    by_cases hk : k' = k
    · simp [mset, hk, mget]
    · simp [mset, hk, mget, ih]

theorem mget_mset_ne {β : Type} (m : List (Ident × β)) (k k' : Ident) (v : β)
    (h : k ≠ k') : mget (mset m k v) k' = mget m k' := by
  induction m with
  | nil => simp [mset, mget, h]
  | cons p t ih =>
    obtain ⟨k2, v2⟩ := p
    by_cases hk : k2 = k
    · subst hk
      simp [mset, mget, h]
    · by_cases hk' : k2 = k'
      · simp [mset, hk, mget, hk', Ne.symm h]
      · simp [mset, hk, mget, hk', ih]

theorem isShared_congr {c c' : Container} (h : c'.bindings = c.bindings) (k : Ident) :
    c'.isShared k = c.isShared k := by
  simp [Container.isShared, h]

theorem preserved_refl (c : Container) : Preserved c c :=
  ⟨rfl, rfl, fun _ _ h => h, fun _ _ => rfl⟩

theorem preserved_trans {c c₁ c₂ : Container}
    (h1 : Preserved c c₁) (h2 : Preserved c₁ c₂) : Preserved c c₂ := by
  obtain ⟨b1, s1, p1, q1⟩ := h1
  obtain ⟨b2, s2, p2, q2⟩ := h2
  refine ⟨b2.trans b1, s2.trans s1, fun k v h => p2 k v (p1 k v h), fun k hk => ?_⟩
  have hk1 : c₁.isShared k = false := (isShared_congr b1 k).trans hk
  exact (q2 k hk1).trans (q1 k hk)

/- ### The caching tail of `make` -/

theorem makeFinish_fuelOut {x : Ident} {r : Res Value} :
    makeFinish x r = .fuelOut ↔ r = .fuelOut := by
  cases r <;> simp [makeFinish]

theorem makeFinish_err {x : Ident} {e : CErr} {c : Container} {a : Nat} :
    makeFinish x (.err e c a) = .err e c a := rfl

theorem makeFinish_ok {x : Ident} {v : Value} {c' : Container} {a' : Nat} :
    makeFinish x (.ok v c' a') =
      .ok v { (if c'.isShared x
               then { c' with instances := mset c'.instances x v }
               else c') with
              resolved := sadd (if c'.isShared x
                                then { c' with instances := mset c'.instances x v }
                                else c').resolved x } a' := rfl

theorem make_zero_eq (env : Env) (c : Container) (x : Ident)
    (params : List (String × Value)) (alloc : Nat) :
    make env 0 c x params alloc = .fuelOut := rfl

theorem make_succ_eq (env : Env) (fuel : Nat) (c : Container) (x : Ident)
    (params : List (String × Value)) (alloc : Nat) :
    make env (fuel + 1) c x params alloc =
      match mget c.instances x with
      | some v => .ok v c alloc
      | none =>
        if isBuildable (getConcrete c x) x then
          makeFinish x (buildF env (make env fuel) c (getConcrete c x) params alloc)
        else
          makeFinish x (make env fuel c (getConcrete c x) [] alloc) := rfl

theorem makeFinish_preserved {x : Ident} {c : Container} {r : Res Value}
    (hnone : mget c.instances x = none) (hr : ResPreserved c r) :
    ResPreserved c (makeFinish x r) := by
  intro cfin hfin
  cases r with
  | fuelOut => simp [makeFinish, Res.cstate] at hfin
  | err e c' a' =>
    simp only [makeFinish_err, Res.cstate, Option.some.injEq] at hfin
    exact hfin ▸ hr c' rfl
  | ok v c' a' =>
    have hp : Preserved c c' := hr c' rfl
    obtain ⟨hb, hs, hkeep, hfix⟩ := hp
    simp only [makeFinish_ok, Res.cstate, Option.some.injEq] at hfin
    subst hfin
    by_cases hsh : c'.isShared x = true
    · refine ⟨by simpa [hsh] using hb, by simpa [hsh] using hs, ?_, ?_⟩
      · intro k v' hk
        have hne : x ≠ k := by
          intro hxk
          rw [← hxk] at hk
          rw [hnone] at hk
          exact Option.noConfusion hk
        simp only [hsh, if_true]
        rw [mget_mset_ne _ _ _ _ hne]
        exact hkeep k v' hk
      · intro k hk
        have hxs : c.isShared x = true := (isShared_congr hb x) ▸ hsh
        have hne : x ≠ k := fun hxk => by
          rw [hxk] at hxs
          rw [hxs] at hk
          exact Bool.noConfusion hk
        simp only [hsh, if_true]
        rw [mget_mset_ne _ _ _ _ hne]
        exact hfix k hk
    · simp only [Bool.not_eq_true] at hsh
      exact ⟨by simpa [hsh] using hb, by simpa [hsh] using hs,
             by simpa [hsh] using hkeep, by simpa [hsh] using hfix⟩

/- ### State preservation through resolution -/

theorem resolveDepsF_preserved
    (mk : Container → Ident → List (String × Value) → Nat → Res Value)
    (hmk : ∀ c x p a, ResPreserved c (mk c x p a)) :
    ∀ (names : List String) (c : Container) (idx : Nat) (owner : String)
      (params : List (String × Value)) (alloc : Nat),
      ResPreserved c (resolveDepsF mk c names idx owner params alloc) := by
  intro names
  induction names with
  | nil =>
    intro c idx owner params alloc c' h
    simp only [resolveDepsF, Res.cstate, Option.some.injEq] at h
    exact h ▸ preserved_refl c
  | cons name rest ih =>
    intro c idx owner params alloc cfin hfin
    simp only [resolveDepsF] at hfin
    cases hp : pget params name with
    | some v =>
      simp only [hp] at hfin
      cases hrest : resolveDepsF mk c rest (idx + 1) owner params alloc with
      | ok vs c'' a'' =>
        rw [hrest] at hfin
        simp only [Res.cstate, Option.some.injEq] at hfin
        exact hfin ▸ ih c (idx + 1) owner params alloc c'' (by rw [hrest]; rfl)
      | err e c'' a'' =>
        rw [hrest] at hfin
        simp only [Res.cstate, Option.some.injEq] at hfin
        exact hfin ▸ ih c (idx + 1) owner params alloc c'' (by rw [hrest]; rfl)
      | fuelOut =>
        rw [hrest] at hfin
        simp [Res.cstate] at hfin
    | none =>
      simp only [hp] at hfin
      by_cases hh : c.has (.str name) = true
      · simp only [hh, if_true] at hfin
        cases hstep : mk c (.str name) [] alloc with
        | ok v c' a' =>
          have hpc : Preserved c c' := hmk c (.str name) [] alloc c' (by rw [hstep]; rfl)
          simp only [hstep] at hfin
          cases hrest : resolveDepsF mk c' rest (idx + 1) owner params a' with
          | ok vs c'' a'' =>
            simp only [hrest, Res.cstate, Option.some.injEq] at hfin
            exact hfin ▸ preserved_trans hpc
              (ih c' (idx + 1) owner params a' c'' (by rw [hrest]; rfl))
          | err e c'' a'' =>
            simp only [hrest, Res.cstate, Option.some.injEq] at hfin
            exact hfin ▸ preserved_trans hpc
              (ih c' (idx + 1) owner params a' c'' (by rw [hrest]; rfl))
          | fuelOut =>
            simp only [hrest] at hfin
            simp [Res.cstate] at hfin
        | err e c' a' =>
          simp only [hstep, Res.cstate, Option.some.injEq] at hfin
          exact hfin ▸ hmk c (.str name) [] alloc c' (by rw [hstep]; rfl)
        | fuelOut =>
          simp only [hstep] at hfin
          simp [Res.cstate] at hfin
      · simp only [Bool.not_eq_true] at hh
        simp only [hh, Bool.false_eq_true, if_false] at hfin
        simp only [Res.cstate, Option.some.injEq] at hfin
        exact hfin ▸ preserved_refl c

theorem buildF_preserved (env : Env)
    (mk : Container → Ident → List (String × Value) → Nat → Res Value)
    (hmk : ∀ c x p a, ResPreserved c (mk c x p a))
    (c : Container) (concrete : Ident) (params : List (String × Value)) (alloc : Nat) :
    ResPreserved c (buildF env mk c concrete params alloc) := by
  intro cfin hfin
  cases concrete with
  | fn f =>
    simp only [buildF, Res.cstate, Option.some.injEq] at hfin
    exact hfin ▸ preserved_refl c
  | sym n desc =>
    simp only [buildF] at hfin
    cases hr : resolveDepsF mk c (getParamNames ("Symbol(" ++ desc ++ ")")) 0 "undefined"
        params alloc with
    | ok deps c' a' =>
      rw [hr] at hfin
      simp only [Res.cstate, Option.some.injEq] at hfin
      exact hfin ▸ resolveDepsF_preserved mk hmk _ c 0 _ params alloc c' (by rw [hr]; rfl)
    | err e c' a' =>
      rw [hr] at hfin
      simp only [Res.cstate, Option.some.injEq] at hfin
      exact hfin ▸ resolveDepsF_preserved mk hmk _ c 0 _ params alloc c' (by rw [hr]; rfl)
    | fuelOut =>
      rw [hr] at hfin
      simp [Res.cstate] at hfin
  | cls cid =>
    simp only [buildF] at hfin
    cases hr : resolveDepsF mk c (getParamNames (env.classes cid).src) 0
        (env.classes cid).name params alloc with
    | ok deps c' a' =>
      rw [hr] at hfin
      simp only [Res.cstate, Option.some.injEq] at hfin
      exact hfin ▸ resolveDepsF_preserved mk hmk _ c 0 _ params alloc c' (by rw [hr]; rfl)
    | err e c' a' =>
      rw [hr] at hfin
      simp only [Res.cstate, Option.some.injEq] at hfin
      exact hfin ▸ resolveDepsF_preserved mk hmk _ c 0 _ params alloc c' (by rw [hr]; rfl)
    | fuelOut =>
      rw [hr] at hfin
      simp [Res.cstate] at hfin
  | str s =>
    simp only [buildF] at hfin
    cases hr : resolveDepsF mk c (getParamNames s) 0 "undefined" params alloc with
    | ok deps c' a' =>
      rw [hr] at hfin
      simp only [Res.cstate, Option.some.injEq] at hfin
      exact hfin ▸ resolveDepsF_preserved mk hmk _ c 0 _ params alloc c' (by rw [hr]; rfl)
    | err e c' a' =>
      rw [hr] at hfin
      simp only [Res.cstate, Option.some.injEq] at hfin
      exact hfin ▸ resolveDepsF_preserved mk hmk _ c 0 _ params alloc c' (by rw [hr]; rfl)
    | fuelOut =>
      rw [hr] at hfin
      simp [Res.cstate] at hfin

theorem make_preserved (env : Env) :
    ∀ (fuel : Nat) (c : Container) (x : Ident) (params : List (String × Value)) (alloc : Nat),
      ResPreserved c (make env fuel c x params alloc) := by
  intro fuel
  induction fuel with
  | zero =>
    intro c x params alloc c' h
    simp [make, Res.cstate] at h
  | succ fuel ih =>
    intro c x params alloc c' h
    simp only [make] at h
    cases hi : mget c.instances x with
    | some v =>
      rw [hi] at h
      simp only [Res.cstate, Option.some.injEq] at h
      exact h ▸ preserved_refl c
    | none =>
      rw [hi] at h
      by_cases hb : isBuildable (getConcrete c x) x = true
      · simp only [hb, if_true] at h
        exact makeFinish_preserved hi
          (buildF_preserved env (make env fuel) (fun c₀ x₀ p₀ a₀ => ih c₀ x₀ p₀ a₀)
            c (getConcrete c x) params alloc) c' h
      · simp only [Bool.not_eq_true] at hb
        simp only [hb, Bool.false_eq_true, if_false] at h
        exact makeFinish_preserved hi (fun c₀ h₀ => ih c (getConcrete c x) [] alloc c₀ h₀) c' h

/- ### The allocation counter never decreases -/

theorem makeFinish_allocOf {x : Ident} (r : Res Value) :
    (makeFinish x r).allocOf = r.allocOf := by
  cases r <;> rfl

theorem resolveDepsF_allocLe
    (mk : Container → Ident → List (String × Value) → Nat → Res Value)
    (hmk : ∀ c x p a, ResAllocLe a (mk c x p a)) :
    ∀ (names : List String) (c : Container) (idx : Nat) (owner : String)
      (params : List (String × Value)) (alloc : Nat),
      ResAllocLe alloc (resolveDepsF mk c names idx owner params alloc) := by
  intro names
  induction names with
  | nil =>
    intro c idx owner params alloc a' h
    simp only [resolveDepsF, Res.allocOf, Option.some.injEq] at h
    omega
  | cons name rest ih =>
    intro c idx owner params alloc a' h
    simp only [resolveDepsF] at h
    cases hp : pget params name with
    | some v =>
      simp only [hp] at h
      cases hrest : resolveDepsF mk c rest (idx + 1) owner params alloc with
      | ok vs c'' a'' =>
        simp only [hrest, Res.allocOf, Option.some.injEq] at h
        exact h ▸ ih c (idx + 1) owner params alloc a'' (by rw [hrest]; rfl)
      | err e c'' a'' =>
        simp only [hrest, Res.allocOf, Option.some.injEq] at h
        exact h ▸ ih c (idx + 1) owner params alloc a'' (by rw [hrest]; rfl)
      | fuelOut =>
        simp only [hrest] at h
        simp [Res.allocOf] at h
    | none =>
      simp only [hp] at h
      by_cases hh : c.has (.str name) = true
      · simp only [hh, if_true] at h
        cases hstep : mk c (.str name) [] alloc with
        | ok v c' a1 =>
          have h1 : alloc ≤ a1 := hmk c (.str name) [] alloc a1 (by rw [hstep]; rfl)
          simp only [hstep] at h
          cases hrest : resolveDepsF mk c' rest (idx + 1) owner params a1 with
          | ok vs c'' a'' =>
            simp only [hrest, Res.allocOf, Option.some.injEq] at h
            have h2 := ih c' (idx + 1) owner params a1 a'' (by rw [hrest]; rfl)
            omega
          | err e c'' a'' =>
            simp only [hrest, Res.allocOf, Option.some.injEq] at h
            have h2 := ih c' (idx + 1) owner params a1 a'' (by rw [hrest]; rfl)
            omega
          | fuelOut =>
            simp only [hrest] at h
            simp [Res.allocOf] at h
        | err e c' a1 =>
          simp only [hstep, Res.allocOf, Option.some.injEq] at h
          exact h ▸ hmk c (.str name) [] alloc a1 (by rw [hstep]; rfl)
        | fuelOut =>
          simp only [hstep] at h
          simp [Res.allocOf] at h
      · simp only [Bool.not_eq_true] at hh
        simp only [hh, Bool.false_eq_true, if_false, Res.allocOf, Option.some.injEq] at h
        omega

theorem buildF_allocLe (env : Env) (henv : EnvMono env)
    (mk : Container → Ident → List (String × Value) → Nat → Res Value)
    (hmk : ∀ c x p a, ResAllocLe a (mk c x p a))
    (c : Container) (concrete : Ident) (params : List (String × Value)) (alloc : Nat) :
    ResAllocLe alloc (buildF env mk c concrete params alloc) := by
  intro a' h
  cases concrete with
  | fn f =>
    simp only [buildF, Res.allocOf, Option.some.injEq] at h
    exact h ▸ henv f alloc
  | sym n desc =>
    simp only [buildF] at h
    cases hr : resolveDepsF mk c (getParamNames ("Symbol(" ++ desc ++ ")")) 0 "undefined"
        params alloc with
    | ok deps c' a1 =>
      simp only [hr, Res.allocOf, Option.some.injEq] at h
      exact h ▸ resolveDepsF_allocLe mk hmk _ c 0 _ params alloc a1 (by rw [hr]; rfl)
    | err e c' a1 =>
      simp only [hr, Res.allocOf, Option.some.injEq] at h
      exact h ▸ resolveDepsF_allocLe mk hmk _ c 0 _ params alloc a1 (by rw [hr]; rfl)
    | fuelOut =>
      simp only [hr] at h
      simp [Res.allocOf] at h
  | cls cid =>
    simp only [buildF] at h
    cases hr : resolveDepsF mk c (getParamNames (env.classes cid).src) 0
        (env.classes cid).name params alloc with
    | ok deps c' a1 =>
      simp only [hr, Res.allocOf, Option.some.injEq] at h
      have := resolveDepsF_allocLe mk hmk _ c 0 _ params alloc a1 (by rw [hr]; rfl)
      omega
    | err e c' a1 =>
      simp only [hr, Res.allocOf, Option.some.injEq] at h
      exact h ▸ resolveDepsF_allocLe mk hmk _ c 0 _ params alloc a1 (by rw [hr]; rfl)
    | fuelOut =>
      simp only [hr] at h
      simp [Res.allocOf] at h
  | str s =>
    simp only [buildF] at h
    cases hr : resolveDepsF mk c (getParamNames s) 0 "undefined" params alloc with
    | ok deps c' a1 =>
      simp only [hr, Res.allocOf, Option.some.injEq] at h
      exact h ▸ resolveDepsF_allocLe mk hmk _ c 0 _ params alloc a1 (by rw [hr]; rfl)
    | err e c' a1 =>
      simp only [hr, Res.allocOf, Option.some.injEq] at h
      exact h ▸ resolveDepsF_allocLe mk hmk _ c 0 _ params alloc a1 (by rw [hr]; rfl)
    | fuelOut =>
      simp only [hr] at h
      simp [Res.allocOf] at h

theorem make_allocLe (env : Env) (henv : EnvMono env) :
    ∀ (fuel : Nat) (c : Container) (x : Ident) (params : List (String × Value)) (alloc : Nat),
      ResAllocLe alloc (make env fuel c x params alloc) := by
  intro fuel
  induction fuel with
  | zero =>
    intro c x params alloc a' h
    simp [make, Res.allocOf] at h
  | succ fuel ih =>
    intro c x params alloc a' h
    simp only [make] at h
    cases hi : mget c.instances x with
    | some v =>
      simp only [hi, Res.allocOf, Option.some.injEq] at h
      omega
    | none =>
      simp only [hi] at h
      by_cases hb : isBuildable (getConcrete c x) x = true
      · simp only [hb, if_true] at h
        rw [makeFinish_allocOf] at h
        exact buildF_allocLe env henv (make env fuel) (fun c₀ x₀ p₀ a₀ => ih c₀ x₀ p₀ a₀)
          c (getConcrete c x) params alloc a' h
      · simp only [Bool.not_eq_true] at hb
        simp only [hb, Bool.false_eq_true, if_false] at h
        rw [makeFinish_allocOf] at h
        exact ih c (getConcrete c x) [] alloc a' h

/- ### More fuel never changes a settled outcome -/

theorem monoLe_trans {mk₁ mk₂ mk₃ : Container → Ident → List (String × Value) → Nat → Res Value}
    (h1 : MonoLe mk₁ mk₂) (h2 : MonoLe mk₂ mk₃) : MonoLe mk₁ mk₃ := by
  intro c x p a hne
  have e1 := h1 c x p a hne
  have e2 := h2 c x p a (by rw [e1]; exact hne)
  rw [e2, e1]

theorem resolveDepsF_monoLe
    {mk mk' : Container → Ident → List (String × Value) → Nat → Res Value}
    (h : MonoLe mk mk') :
    ∀ (names : List String) (c : Container) (idx : Nat) (owner : String)
      (params : List (String × Value)) (alloc : Nat),
      resolveDepsF mk c names idx owner params alloc ≠ .fuelOut →
      resolveDepsF mk' c names idx owner params alloc =
        resolveDepsF mk c names idx owner params alloc := by
  intro names
  induction names with
  | nil => intro c idx owner params alloc _; rfl
  | cons name rest ih =>
    intro c idx owner params alloc hne
    simp only [resolveDepsF] at hne ⊢
    cases hp : pget params name with
    | some v =>
      simp only [hp] at hne ⊢
      cases hrest : resolveDepsF mk c rest (idx + 1) owner params alloc with
      | ok vs c'' a'' => rw [ih c (idx + 1) owner params alloc (by rw [hrest]; simp), hrest]
      | err e c'' a'' => rw [ih c (idx + 1) owner params alloc (by rw [hrest]; simp), hrest]
      | fuelOut => rw [hrest] at hne; simp at hne
    | none =>
      simp only [hp] at hne ⊢
      by_cases hh : c.has (.str name) = true
      · simp only [hh, if_true] at hne ⊢
        cases hstep : mk c (.str name) [] alloc with
        | ok v c' a1 =>
          rw [h c (.str name) [] alloc (by rw [hstep]; simp)]
          simp only [hstep] at hne ⊢
          cases hrest : resolveDepsF mk c' rest (idx + 1) owner params a1 with
          | ok vs c'' a'' =>
            rw [ih c' (idx + 1) owner params a1 (by rw [hrest]; simp)]
            rw [hrest]
          | err e c'' a'' =>
            rw [ih c' (idx + 1) owner params a1 (by rw [hrest]; simp)]
            rw [hrest]
          | fuelOut => rw [hrest] at hne; simp at hne
        | err e c' a1 =>
          rw [h c (.str name) [] alloc (by rw [hstep]; simp)]
          simp only [hstep]
        | fuelOut =>
          simp only [hstep] at hne
          simp at hne
      · simp only [Bool.not_eq_true] at hh
        simp only [hh, Bool.false_eq_true, if_false]

theorem buildF_monoLe (env : Env)
    {mk mk' : Container → Ident → List (String × Value) → Nat → Res Value}
    (h : MonoLe mk mk')
    (c : Container) (concrete : Ident) (params : List (String × Value)) (alloc : Nat)
    (hne : buildF env mk c concrete params alloc ≠ .fuelOut) :
    buildF env mk' c concrete params alloc = buildF env mk c concrete params alloc := by
  cases concrete with
  | fn f => rfl
  | sym n desc =>
    simp only [buildF] at hne ⊢
    cases hr : resolveDepsF mk c (getParamNames ("Symbol(" ++ desc ++ ")"))
        0 "undefined" params alloc with
    | ok deps c' a1 => rw [resolveDepsF_monoLe h _ c 0 _ params alloc (by rw [hr]; simp), hr]
    | err e c' a1 => rw [resolveDepsF_monoLe h _ c 0 _ params alloc (by rw [hr]; simp), hr]
    | fuelOut => rw [hr] at hne; simp at hne
  | cls cid =>
    simp only [buildF] at hne ⊢
    cases hr : resolveDepsF mk c (getParamNames (env.classes cid).src)
        0 (env.classes cid).name params alloc with
    | ok deps c' a1 => rw [resolveDepsF_monoLe h _ c 0 _ params alloc (by rw [hr]; simp), hr]
    | err e c' a1 => rw [resolveDepsF_monoLe h _ c 0 _ params alloc (by rw [hr]; simp), hr]
    | fuelOut => rw [hr] at hne; simp at hne
  | str s =>
    simp only [buildF] at hne ⊢
    cases hr : resolveDepsF mk c (getParamNames s) 0 "undefined" params alloc with
    | ok deps c' a1 => rw [resolveDepsF_monoLe h _ c 0 _ params alloc (by rw [hr]; simp), hr]
    | err e c' a1 => rw [resolveDepsF_monoLe h _ c 0 _ params alloc (by rw [hr]; simp), hr]
    | fuelOut => rw [hr] at hne; simp at hne

theorem make_mono_succ (env : Env) :
    ∀ fuel : Nat, MonoLe (make env fuel) (make env (fuel + 1)) := by
  intro fuel
  induction fuel with
  | zero =>
    intro c x p a hne
    simp [make] at hne
  | succ fuel ih =>
    intro c x p a hne
    rw [make_succ_eq env fuel c x p a] at hne
    rw [make_succ_eq env (fuel + 1) c x p a, make_succ_eq env fuel c x p a]
    cases hi : mget c.instances x with
    | some v => simp [hi]
    | none =>
      simp only [hi] at hne ⊢
      by_cases hb : isBuildable (getConcrete c x) x = true
      · simp only [hb, if_true] at hne ⊢
        have hbne : buildF env (make env fuel) c (getConcrete c x) p a ≠ .fuelOut := by
          intro hcon
          rw [hcon] at hne
          exact hne (makeFinish_fuelOut.mpr rfl)
        rw [buildF_monoLe env ih c (getConcrete c x) p a hbne]
      · simp only [Bool.not_eq_true] at hb
        simp only [hb, Bool.false_eq_true, if_false] at hne ⊢
        have hmne : make env fuel c (getConcrete c x) [] a ≠ .fuelOut := by
          intro hcon
          rw [hcon] at hne
          exact hne (makeFinish_fuelOut.mpr rfl)
        rw [ih c (getConcrete c x) [] a hmne]

theorem make_monoLe (env : Env) {f f' : Nat} (h : f ≤ f') :
    MonoLe (make env f) (make env f') := by
  induction f' with
  | zero =>
    have : f = 0 := Nat.le_zero.mp h
    subst this
    intro c x p a _
    rfl
  | succ f' ih =>
    rcases Nat.lt_or_ge f (f' + 1) with hlt | hge
    · exact monoLe_trans (ih (Nat.lt_succ_iff.mp hlt)) (make_mono_succ env f')
    · have : f = f' + 1 := Nat.le_antisymm h hge
      subst this
      intro c x p a _
      rfl

/- ### Termination under an acyclic dependency relation -/

theorem resolveDepsF_terminates (env : Env) (B : List (Ident × Binding)) :
    ∀ (names : List String), (∀ n ∈ names, Terminates env B (.str n)) →
    ∀ (c : Container) (idx : Nat) (owner : String) (params : List (String × Value))
      (alloc : Nat), c.bindings = B →
      ∃ F, resolveDepsF (make env F) c names idx owner params alloc ≠ .fuelOut := by
  intro names
  induction names with
  | nil =>
    intro _ c idx owner params alloc _
    exact ⟨0, by simp [resolveDepsF]⟩
  | cons name rest ih =>
    intro hnames c idx owner params alloc hB
    cases hp : pget params name with
    | some v =>
      obtain ⟨F, hF⟩ := ih (fun n hn => hnames n (List.mem_cons_of_mem _ hn))
        c (idx + 1) owner params alloc hB
      refine ⟨F, ?_⟩
      simp only [resolveDepsF, hp]
      cases hrest : resolveDepsF (make env F) c rest (idx + 1) owner params alloc with
      | ok vs c'' a'' => simp
      | err e c'' a'' => simp
      | fuelOut => exact absurd hrest hF
    | none =>
      by_cases hh : c.has (.str name) = true
      · obtain ⟨f₁, hf₁⟩ := hnames name (List.mem_cons_self name rest) c [] alloc hB
        cases hr₁ : make env f₁ c (.str name) [] alloc with
        | fuelOut => exact absurd hr₁ hf₁
        | err e c' a' =>
          refine ⟨f₁, ?_⟩
          simp only [resolveDepsF, hp, hh, if_true, hr₁]
          simp
        | ok v c' a' =>
          have hB' : c'.bindings = B := by
            have := (make_preserved env f₁ c (.str name) [] alloc c' (by rw [hr₁]; rfl)).1
            rw [this, hB]
          obtain ⟨F₂, hF₂⟩ := ih (fun n hn => hnames n (List.mem_cons_of_mem _ hn))
            c' (idx + 1) owner params a' hB'
          refine ⟨max f₁ F₂, ?_⟩
          have hstep : make env (max f₁ F₂) c (.str name) [] alloc = .ok v c' a' := by
            rw [make_monoLe env (Nat.le_max_left f₁ F₂) c (.str name) [] alloc
              (by rw [hr₁]; simp), hr₁]
          have hrest : resolveDepsF (make env (max f₁ F₂)) c' rest (idx + 1) owner params a' =
              resolveDepsF (make env F₂) c' rest (idx + 1) owner params a' :=
            resolveDepsF_monoLe (make_monoLe env (Nat.le_max_right f₁ F₂))
              rest c' (idx + 1) owner params a' hF₂
          simp only [resolveDepsF, hp, hh, if_true, hstep]
          rw [hrest]
          cases hr₂ : resolveDepsF (make env F₂) c' rest (idx + 1) owner params a' with
          | ok vs c'' a'' => simp
          | err e c'' a'' => simp
          | fuelOut => exact absurd hr₂ hF₂
      · simp only [Bool.not_eq_true] at hh
        refine ⟨0, ?_⟩
        simp [resolveDepsF, hp, hh]

theorem make_terminates_of_acc (env : Env) (B : List (Ident × Binding)) :
    ∀ x : Ident, Acc (DepEdge env B) x → Terminates env B x := by
  intro x hacc
  induction hacc with
  | intro x hx ih =>
    intro c params alloc hB
    cases hi : mget c.instances x with
    | some v => exact ⟨1, by rw [make_succ_eq]; simp [hi]⟩
    | none =>
      have hgcB : getConcrete c x = (match mget B x with
          | some b => b.value
          | none => x) := by
        simp only [getConcrete, hB]
      by_cases hbd : isBuildable (getConcrete c x) x = true
      · cases hcon : getConcrete c x with
        | fn f =>
          refine ⟨1, ?_⟩
          rw [make_succ_eq]
          simp only [hi, hcon]
          rw [if_pos (show isBuildable (Ident.fn f) x = true by rw [← hcon]; exact hbd)]
          intro hcontra
          rw [makeFinish_fuelOut] at hcontra
          simp [buildF] at hcontra
        | sym n desc =>
          have hdeps : directDeps env B x
              = (getParamNames ("Symbol(" ++ desc ++ ")")).map .str := by
            simp only [directDeps]
            rw [← hgcB, hcon]
            rw [hcon] at hbd
            simp [hbd, buildTokens]
          have hterm : ∀ m ∈ getParamNames ("Symbol(" ++ desc ++ ")"),
              Terminates env B (.str m) := by
            intro m hm
            refine ih (.str m) ?_ 
            show Ident.str m ∈ directDeps env B x
            rw [hdeps]
            exact List.mem_map_of_mem _ hm
          obtain ⟨F, hF⟩ := resolveDepsF_terminates env B
            (getParamNames ("Symbol(" ++ desc ++ ")")) hterm c 0 "undefined" params alloc hB
          refine ⟨F + 1, ?_⟩
          rw [make_succ_eq]
          simp only [hi, hcon]
          rw [if_pos (show isBuildable (Ident.sym n desc) x = true by rw [← hcon]; exact hbd)]
          intro hcontra
          rw [makeFinish_fuelOut] at hcontra
          simp only [buildF] at hcontra
          cases hr : resolveDepsF (make env F) c (getParamNames ("Symbol(" ++ desc ++ ")")) 0
              "undefined" params alloc with
          | ok deps c' a' => rw [hr] at hcontra; exact Res.noConfusion hcontra
          | err e c' a' => rw [hr] at hcontra; exact Res.noConfusion hcontra
          | fuelOut => exact absurd hr hF
        | cls cid =>
          have hdeps : directDeps env B x = (getParamNames (env.classes cid).src).map .str := by
            simp only [directDeps]
            rw [← hgcB, hcon]
            rw [hcon] at hbd
            simp [hbd, buildTokens]
          have hterm : ∀ n ∈ getParamNames (env.classes cid).src, Terminates env B (.str n) := by
            intro n hn
            refine ih (.str n) ?_ 
            show Ident.str n ∈ directDeps env B x
            rw [hdeps]
            exact List.mem_map_of_mem _ hn
          obtain ⟨F, hF⟩ := resolveDepsF_terminates env B
            (getParamNames (env.classes cid).src) hterm c 0 (env.classes cid).name
            params alloc hB
          refine ⟨F + 1, ?_⟩
          rw [make_succ_eq]
          simp only [hi, hcon]
          rw [if_pos (show isBuildable (Ident.cls cid) x = true by rw [← hcon]; exact hbd)]
          intro hcontra
          rw [makeFinish_fuelOut] at hcontra
          simp only [buildF] at hcontra
          cases hr : resolveDepsF (make env F) c (getParamNames (env.classes cid).src) 0
              (env.classes cid).name params alloc with
          | ok deps c' a' => rw [hr] at hcontra; exact Res.noConfusion hcontra
          | err e c' a' => rw [hr] at hcontra; exact Res.noConfusion hcontra
          | fuelOut => exact absurd hr hF
        | str s =>
          have hdeps : directDeps env B x = (getParamNames s).map .str := by
            simp only [directDeps]
            rw [← hgcB, hcon]
            rw [hcon] at hbd
            simp [hbd, buildTokens]
          have hterm : ∀ n ∈ getParamNames s, Terminates env B (.str n) := by
            intro n hn
            refine ih (.str n) ?_ 
            show Ident.str n ∈ directDeps env B x
            rw [hdeps]
            exact List.mem_map_of_mem _ hn
          obtain ⟨F, hF⟩ := resolveDepsF_terminates env B
            (getParamNames s) hterm c 0 "undefined" params alloc hB
          refine ⟨F + 1, ?_⟩
          rw [make_succ_eq]
          simp only [hi, hcon]
          rw [if_pos (show isBuildable (Ident.str s) x = true by rw [← hcon]; exact hbd)]
          intro hcontra
          rw [makeFinish_fuelOut] at hcontra
          simp only [buildF] at hcontra
          cases hr : resolveDepsF (make env F) c (getParamNames s) 0 "undefined"
              params alloc with
          | ok deps c' a' => rw [hr] at hcontra; exact Res.noConfusion hcontra
          | err e c' a' => rw [hr] at hcontra; exact Res.noConfusion hcontra
          | fuelOut => exact absurd hr hF
      · have hdeps : directDeps env B x = [getConcrete c x] := by
          simp only [directDeps]
          rw [← hgcB]
          simp only [Bool.not_eq_true] at hbd
          simp [hbd]
        obtain ⟨f₁, hf₁⟩ := ih (getConcrete c x)
          (by show getConcrete c x ∈ directDeps env B x
              rw [hdeps]
              exact List.mem_singleton_self _)
          c [] alloc hB
        refine ⟨f₁ + 1, ?_⟩
        rw [make_succ_eq]
        simp only [hi]
        rw [if_neg (by simp only [Bool.not_eq_true] at hbd; rw [hbd]; simp)]
        intro hcontra
        rw [makeFinish_fuelOut] at hcontra
        exact hf₁ hcontra

/-- Resolving `'a'` in `cCyclic` (bound to `class A { constructor(a) }`)
loops forever: every fuel is exhausted. -/
theorem make_cyclic_diverges :
    ∀ (fuel alloc : Nat), make cenv fuel cCyclic (.str "a") [] alloc = .fuelOut := by
  intro fuel
  induction fuel with
  | zero => intro alloc; rfl
  | succ fuel ih =>
    intro alloc
    rw [make_succ_eq]
    have h1 : mget cCyclic.instances (.str "a") = none := rfl
    have h2 : getConcrete cCyclic (.str "a") = .cls 4 := rfl
    have h3 : isBuildable (Ident.cls 4) (.str "a") = true := rfl
    simp only [h1, h2, h3, if_true]
    rw [makeFinish_fuelOut]
    have h4 : getParamNames (cenv.classes 4).src = ["a"] := rfl
    simp only [buildF, h4]
    have h5 : pget ([] : List (String × Value)) "a" = none := rfl
    have h6 : cCyclic.has (.str "a") = true := rfl
    simp only [resolveDepsF, h5, h6, if_true, ih alloc]

/- ### Inversion of the caching tail -/

theorem makeFinish_ok_inv {x : Ident} {r : Res Value} {v : Value} {c₁ : Container} {a₁ : Nat}
    (h : makeFinish x r = .ok v c₁ a₁) :
    ∃ c', r = .ok v c' a₁ ∧
      c₁ = { (if c'.isShared x
              then { c' with instances := mset c'.instances x v }
              else c') with
             resolved := sadd (if c'.isShared x
                               then { c' with instances := mset c'.instances x v }
                               else c').resolved x } := by
  cases r with
  | ok w c' a' =>
    rw [makeFinish_ok] at h
    obtain ⟨hv, hc, ha⟩ := Res.ok.inj h
    subst hv
    subst ha
    exact ⟨c', rfl, hc.symm⟩
  | err e c' a' => exact Res.noConfusion h
  | fuelOut => exact Res.noConfusion h

/-- A successful `make` of a shared identifier leaves the built object in
the cache under that identifier. -/
theorem make_ok_shared_cached (env : Env) (fuel : Nat) (c : Container) (x : Ident)
    (params : List (String × Value)) (alloc : Nat) (v : Value) (c₁ : Container) (a₁ : Nat)
    (hsh : c.isShared x = true)
    (h : make env fuel c x params alloc = .ok v c₁ a₁) :
    mget c₁.instances x = some v := by
  cases fuel with
  | zero => exact Res.noConfusion h
  | succ fuel =>
    rw [make_succ_eq] at h
    cases hi : mget c.instances x with
    | some w =>
      rw [hi] at h
      obtain ⟨hv, hc, _⟩ := Res.ok.inj h
      rw [hc, hv] at hi
      exact hi
    | none =>
      rw [hi] at h
      by_cases hb : isBuildable (getConcrete c x) x = true
      · rw [if_pos hb] at h
        obtain ⟨c', hr, hc₁⟩ := makeFinish_ok_inv h
        have hpres : Preserved c c' :=
          buildF_preserved env (make env fuel) (make_preserved env fuel) c
            (getConcrete c x) params alloc c' (by rw [hr]; rfl)
        have hsh' : c'.isShared x = true := (isShared_congr hpres.1 x).trans hsh
        rw [hc₁]
        simp only [hsh', if_true]
        exact mget_mset_self c'.instances x v
      · rw [if_neg hb] at h
        obtain ⟨c', hr, hc₁⟩ := makeFinish_ok_inv h
        have hpres : Preserved c c' :=
          make_preserved env fuel c (getConcrete c x) [] alloc c' (by rw [hr]; rfl)
        have hsh' : c'.isShared x = true := (isShared_congr hpres.1 x).trans hsh
        rw [hc₁]
        simp only [hsh', if_true]
        exact mget_mset_self c'.instances x v

/-- A successful `make` of an identifier bound non-shared to a class
yields a freshly allocated object of that class, with its allocation
number in the window opened by the call, and neither caches it nor
changes the bindings. -/
theorem make_ok_class_nonshared_shape (env : Env) (henv : EnvMono env)
    (fuel : Nat) (c : Container) (x : Ident) (cid : Nat)
    (params : List (String × Value)) (alloc : Nat) (v : Value) (c₁ : Container) (a₁ : Nat)
    (hbind : mget c.bindings x = some ⟨.cls cid, false⟩)
    (hinst : mget c.instances x = none)
    (h : make env fuel c x params alloc = .ok v c₁ a₁) :
    ∃ deps ad, v = .obj cid ad deps ∧ alloc ≤ ad ∧ ad < a₁ ∧
      c₁.bindings = c.bindings ∧ mget c₁.instances x = none := by
  cases fuel with
  | zero => exact Res.noConfusion h
  | succ fuel =>
    rw [make_succ_eq] at h
    rw [hinst] at h
    have hgc : getConcrete c x = .cls cid := by simp [getConcrete, hbind]
    have hsh : c.isShared x = false := by simp [Container.isShared, hbind]
    rw [hgc] at h
    rw [if_pos (by simp [isBuildable, Ident.isFunction])] at h
    obtain ⟨c', hr, hc₁⟩ := makeFinish_ok_inv h
    simp only [buildF] at hr
    cases hdeps : resolveDepsF (make env fuel) c (getParamNames (env.classes cid).src) 0
        (env.classes cid).name params alloc with
    | ok deps c₀ ad =>
      rw [hdeps] at hr
      obtain ⟨hv, hc', ha⟩ := Res.ok.inj hr
      have hpres : Preserved c c₀ :=
        resolveDepsF_preserved (make env fuel) (make_preserved env fuel) _ c 0 _
          params alloc c₀ (by rw [hdeps]; rfl)
      have hle : alloc ≤ ad :=
        resolveDepsF_allocLe (make env fuel) (make_allocLe env henv fuel) _ c 0 _
          params alloc ad (by rw [hdeps]; rfl)
      have hsh' : c'.isShared x = false := by
        rw [← hc']
        exact (isShared_congr hpres.1 x).trans hsh
      refine ⟨deps, ad, hv.symm, hle, by omega, ?_, ?_⟩
      · rw [hc₁]
        simp only [hsh', Bool.false_eq_true, if_false]
        rw [← hc']
        exact hpres.1
      · rw [hc₁]
        simp only [hsh', Bool.false_eq_true, if_false]
        rw [← hc']
        exact (hpres.2.2.2 x hsh).trans hinst
    | err e c₀ ad => rw [hdeps] at hr; exact Res.noConfusion hr
    | fuelOut => rw [hdeps] at hr; exact Res.noConfusion hr

/-- A successful `make` of an identifier bound non-shared to a fresh
factory yields a freshly allocated object, with its allocation number in
the window opened by the call, and neither caches it nor changes the
bindings. -/
theorem make_ok_fresh_factory_shape (env : Env)
    (fuel : Nat) (c : Container) (x : Ident) (fid : Nat)
    (params : List (String × Value)) (alloc : Nat) (v : Value) (c₁ : Container) (a₁ : Nat)
    (hfr : FreshFactory env fid)
    (hbind : mget c.bindings x = some ⟨.fn fid, false⟩)
    (hinst : mget c.instances x = none)
    (h : make env fuel c x params alloc = .ok v c₁ a₁) :
    ∃ m, v = .fac m ∧ alloc ≤ m ∧ m < a₁ ∧
      c₁.bindings = c.bindings ∧ mget c₁.instances x = none := by
  cases fuel with
  | zero => exact Res.noConfusion h
  | succ fuel =>
    rw [make_succ_eq] at h
    rw [hinst] at h
    have hgc : getConcrete c x = .fn fid := by simp [getConcrete, hbind]
    have hsh : c.isShared x = false := by simp [Container.isShared, hbind]
    rw [hgc] at h
    rw [if_pos (by simp [isBuildable, Ident.isFunction])] at h
    obtain ⟨c', hr, hc₁⟩ := makeFinish_ok_inv h
    obtain ⟨m, k, hfk, hnm, hmk⟩ := hfr alloc
    simp only [buildF, hfk] at hr
    obtain ⟨hv, hc', ha⟩ := Res.ok.inj hr
    have hsh' : c'.isShared x = false := by
      rw [← hc']
      exact hsh
    refine ⟨m, hv.symm, hnm, by omega, ?_, ?_⟩
    · rw [hc₁]
      simp only [hsh', Bool.false_eq_true, if_false]
      rw [← hc']
    · rw [hc₁]
      simp only [hsh', Bool.false_eq_true, if_false]
      rw [← hc']
      exact hinst

/- ### The instances entry of an identifier that is never resolved -/

theorem makeFinish_untouched {y x : Ident} {c : Container} {r : Res Value}
    (hyx : y ≠ x)
    (hbase : ∀ c₀, r.cstate = some c₀ → mget c₀.instances x = mget c.instances x) :
    ∀ c', (makeFinish y r).cstate = some c' → mget c'.instances x = mget c.instances x := by
  intro c' h
  cases r with
  | fuelOut => simp [makeFinish, Res.cstate] at h
  | err e c₀ a₀ =>
    rw [makeFinish_err] at h
    simp only [Res.cstate, Option.some.injEq] at h
    subst h
    exact hbase c₀ rfl
  | ok v c₀ a₀ =>
    rw [makeFinish_ok] at h
    simp only [Res.cstate, Option.some.injEq] at h
    subst h
    by_cases hsh : c₀.isShared y = true
    · simp only [hsh, if_true]
      exact show mget (mset c₀.instances y v) x = mget c.instances x from
        (mget_mset_ne _ _ _ _ hyx).trans (hbase c₀ rfl)
    · simp only [Bool.not_eq_true] at hsh
      simp only [hsh, Bool.false_eq_true, if_false]
      exact hbase c₀ rfl

theorem resolveDepsF_untouched (env : Env) (B : List (Ident × Binding)) (x : Ident)
    (mk : Container → Ident → List (String × Value) → Nat → Res Value)
    (hmk_pres : ∀ c₀ z p a₀, ResPreserved c₀ (mk c₀ z p a₀))
    (hmk : ∀ (c₀ : Container) (z : Ident) (p : List (String × Value)) (a₀ : Nat),
       c₀.bindings = B → ¬ Relation.ReflTransGen (Calls env B) z x →
       ∀ c'', (mk c₀ z p a₀).cstate = some c'' →
         mget c''.instances x = mget c₀.instances x) :
    ∀ (names : List String) (c : Container) (idx : Nat) (owner : String)
      (params : List (String × Value)) (alloc : Nat),
      c.bindings = B →
      (∀ n ∈ names, ¬ Relation.ReflTransGen (Calls env B) (.str n) x) →
      ∀ c', (resolveDepsF mk c names idx owner params alloc).cstate = some c' →
        mget c'.instances x = mget c.instances x := by
  intro names
  induction names with
  | nil =>
    intro c idx owner params alloc _ _ c' h
    simp only [resolveDepsF, Res.cstate, Option.some.injEq] at h
    rw [← h]
  | cons name rest ih =>
    intro c idx owner params alloc hB hnames cfin hfin
    simp only [resolveDepsF] at hfin
    cases hp : pget params name with
    | some v =>
      simp only [hp] at hfin
      cases hrest : resolveDepsF mk c rest (idx + 1) owner params alloc with
      | ok vs c'' a'' =>
        simp only [hrest, Res.cstate, Option.some.injEq] at hfin
        exact hfin ▸ ih c (idx + 1) owner params alloc hB
          (fun n hn => hnames n (List.mem_cons_of_mem _ hn)) c'' (by rw [hrest]; rfl)
      | err e c'' a'' =>
        simp only [hrest, Res.cstate, Option.some.injEq] at hfin
        exact hfin ▸ ih c (idx + 1) owner params alloc hB
          (fun n hn => hnames n (List.mem_cons_of_mem _ hn)) c'' (by rw [hrest]; rfl)
      | fuelOut =>
        simp only [hrest] at hfin
        simp [Res.cstate] at hfin
    | none =>
      simp only [hp] at hfin
      by_cases hh : c.has (.str name) = true
      · simp only [hh, if_true] at hfin
        cases hstep : mk c (.str name) [] alloc with
        | ok v c₁ a₁ =>
          have hstepx : mget c₁.instances x = mget c.instances x :=
            hmk c (.str name) [] alloc hB (hnames name (List.mem_cons_self name rest))
              c₁ (by rw [hstep]; rfl)
          have hB₁ : c₁.bindings = B :=
            ((hmk_pres c (.str name) [] alloc) c₁ (by rw [hstep]; rfl)).1.trans hB
          simp only [hstep] at hfin
          cases hrest : resolveDepsF mk c₁ rest (idx + 1) owner params a₁ with
          | ok vs c'' a'' =>
            simp only [hrest, Res.cstate, Option.some.injEq] at hfin
            exact hfin ▸ (ih c₁ (idx + 1) owner params a₁ hB₁
              (fun n hn => hnames n (List.mem_cons_of_mem _ hn)) c''
              (by rw [hrest]; rfl)).trans hstepx
          | err e c'' a'' =>
            simp only [hrest, Res.cstate, Option.some.injEq] at hfin
            exact hfin ▸ (ih c₁ (idx + 1) owner params a₁ hB₁
              (fun n hn => hnames n (List.mem_cons_of_mem _ hn)) c''
              (by rw [hrest]; rfl)).trans hstepx
          | fuelOut =>
            simp only [hrest] at hfin
            simp [Res.cstate] at hfin
        | err e c₁ a₁ =>
          simp only [hstep, Res.cstate, Option.some.injEq] at hfin
          exact hfin ▸ hmk c (.str name) [] alloc hB
            (hnames name (List.mem_cons_self name rest)) c₁ (by rw [hstep]; rfl)
        | fuelOut =>
          simp only [hstep] at hfin
          simp [Res.cstate] at hfin
      · simp only [Bool.not_eq_true] at hh
        simp only [hh, Bool.false_eq_true, if_false, Res.cstate, Option.some.injEq] at hfin
        rw [← hfin]

theorem buildF_untouched (env : Env) (B : List (Ident × Binding)) (x : Ident)
    (mk : Container → Ident → List (String × Value) → Nat → Res Value)
    (hmk_pres : ∀ c₀ z p a₀, ResPreserved c₀ (mk c₀ z p a₀))
    (hmk : ∀ (c₀ : Container) (z : Ident) (p : List (String × Value)) (a₀ : Nat),
       c₀.bindings = B → ¬ Relation.ReflTransGen (Calls env B) z x →
       ∀ c'', (mk c₀ z p a₀).cstate = some c'' →
         mget c''.instances x = mget c₀.instances x)
    (c : Container) (concrete : Ident) (params : List (String × Value)) (alloc : Nat)
    (hB : c.bindings = B)
    (htok : ∀ n ∈ buildTokens env concrete,
       ¬ Relation.ReflTransGen (Calls env B) (.str n) x) :
    ∀ c', (buildF env mk c concrete params alloc).cstate = some c' →
      mget c'.instances x = mget c.instances x := by
  intro c' h
  cases concrete with
  | fn f =>
    simp only [buildF, Res.cstate, Option.some.injEq] at h
    rw [← h]
  | cls cid =>
    simp only [buildF] at h
    cases hr : resolveDepsF mk c (getParamNames (env.classes cid).src) 0
        (env.classes cid).name params alloc with
    | ok deps c₀ a₀ =>
      simp only [hr, Res.cstate, Option.some.injEq] at h
      exact h ▸ resolveDepsF_untouched env B x mk hmk_pres hmk
        (getParamNames (env.classes cid).src) c 0 (env.classes cid).name params alloc hB
        htok c₀ (by rw [hr]; rfl)
    | err e c₀ a₀ =>
      simp only [hr, Res.cstate, Option.some.injEq] at h
      exact h ▸ resolveDepsF_untouched env B x mk hmk_pres hmk
        (getParamNames (env.classes cid).src) c 0 (env.classes cid).name params alloc hB
        htok c₀ (by rw [hr]; rfl)
    | fuelOut =>
      simp only [hr] at h
      simp [Res.cstate] at h
  | str s =>
    simp only [buildF] at h
    cases hr : resolveDepsF mk c (getParamNames s) 0 "undefined" params alloc with
    | ok deps c₀ a₀ =>
      simp only [hr, Res.cstate, Option.some.injEq] at h
      exact h ▸ resolveDepsF_untouched env B x mk hmk_pres hmk
        (getParamNames s) c 0 "undefined" params alloc hB htok c₀ (by rw [hr]; rfl)
    | err e c₀ a₀ =>
      simp only [hr, Res.cstate, Option.some.injEq] at h
      exact h ▸ resolveDepsF_untouched env B x mk hmk_pres hmk
        (getParamNames s) c 0 "undefined" params alloc hB htok c₀ (by rw [hr]; rfl)
    | fuelOut =>
      simp only [hr] at h
      simp [Res.cstate] at h
  | sym n desc =>
    simp only [buildF] at h
    cases hr : resolveDepsF mk c (getParamNames ("Symbol(" ++ desc ++ ")")) 0 "undefined"
        params alloc with
    | ok deps c₀ a₀ =>
      simp only [hr, Res.cstate, Option.some.injEq] at h
      exact h ▸ resolveDepsF_untouched env B x mk hmk_pres hmk
        (getParamNames ("Symbol(" ++ desc ++ ")")) c 0 "undefined" params alloc hB
        htok c₀ (by rw [hr]; rfl)
    | err e c₀ a₀ =>
      simp only [hr, Res.cstate, Option.some.injEq] at h
      exact h ▸ resolveDepsF_untouched env B x mk hmk_pres hmk
        (getParamNames ("Symbol(" ++ desc ++ ")")) c 0 "undefined" params alloc hB
        htok c₀ (by rw [hr]; rfl)
    | fuelOut =>
      simp only [hr] at h
      simp [Res.cstate] at h

/-- If no dependency chain of the bindings table leads from `y` back to
`x`, then resolving `y` never invokes `make` on `x`, so the instances
entry of `x` is exactly unchanged by the whole resolution. -/
theorem make_untouched (env : Env) (B : List (Ident × Binding)) (x : Ident) :
    ∀ (fuel : Nat) (c : Container) (y : Ident) (params : List (String × Value)) (alloc : Nat),
      c.bindings = B →
      ¬ Relation.ReflTransGen (Calls env B) y x →
      ∀ c', (make env fuel c y params alloc).cstate = some c' →
        mget c'.instances x = mget c.instances x := by
  intro fuel
  induction fuel with
  | zero =>
    intro c y params alloc _ _ c' h
    simp [make, Res.cstate] at h
  | succ fuel ih =>
    intro c y params alloc hB hnr c' h
    have hyx : y ≠ x := fun he => hnr (he ▸ Relation.ReflTransGen.refl)
    rw [make_succ_eq] at h
    cases hi : mget c.instances y with
    | some v =>
      simp only [hi, Res.cstate, Option.some.injEq] at h
      rw [← h]
    | none =>
      simp only [hi] at h
      have hgcB : getConcrete c y = (match mget B y with
          | some b => b.value
          | none => y) := by
        simp only [getConcrete, hB]
      by_cases hbd : isBuildable (getConcrete c y) y = true
      · rw [if_pos hbd] at h
        have hdeps : directDeps env B y = (buildTokens env (getConcrete c y)).map .str := by
          simp only [directDeps]
          rw [← hgcB]
          simp [hbd]
        have htok : ∀ n ∈ buildTokens env (getConcrete c y),
            ¬ Relation.ReflTransGen (Calls env B) (.str n) x := by
          intro n hn hreach
          apply hnr
          refine Relation.ReflTransGen.head ?_ hreach
          show Ident.str n ∈ directDeps env B y
          rw [hdeps]
          exact List.mem_map_of_mem _ hn
        exact makeFinish_untouched hyx
          (buildF_untouched env B x (make env fuel) (make_preserved env fuel)
            (fun c₀ z p a₀ hB₀ hnr₀ => ih c₀ z p a₀ hB₀ hnr₀)
            c (getConcrete c y) params alloc hB htok) c' h
      · simp only [Bool.not_eq_true] at hbd
        rw [if_neg (by rw [hbd]; simp)] at h
        have hdeps : directDeps env B y = [getConcrete c y] := by
          simp only [directDeps]
          rw [← hgcB]
          simp [hbd]
        have hnr' : ¬ Relation.ReflTransGen (Calls env B) (getConcrete c y) x := by
          intro hreach
          apply hnr
          refine Relation.ReflTransGen.head ?_ hreach
          show getConcrete c y ∈ directDeps env B y
          rw [hdeps]
          exact List.mem_singleton_self _
        exact makeFinish_untouched hyx
          (fun c₀ h₀ => ih c (getConcrete c y) [] alloc hB hnr' c₀ h₀) c' h

/- ### Claim theorems -/

/-- Claim C1 — code-bug evidence.  The spec says a pipe's error propagates
unchanged to the caller of `thenReturn` for class-shaped pipes as well as
function-shaped pipes.  A function-shaped pipe that raises `user 7` does
reject the run with exactly `user 7`; but the same body as a class-shaped
pipe rejects the run with the `TypeError` from the dispatcher's catch
branch invoking the class without `new`, and even an error raised by a
later function-shaped pipe is replaced when it bubbles back through a
class-shaped pipe's frame.  `classWithoutNew ≠ user 7`: the error is not
the one raised. -/
theorem C1_error_propagation :
    ((Pipeline.create.send (0 : Nat)).through
        [.func (raiseBody (.user 7))]).thenReturn = some (.error (.user 7)) ∧
    ((Pipeline.create.send (0 : Nat)).through
        [.cls (raiseBody (.user 7))]).thenReturn = some (.error .classWithoutNew) ∧
    ((Pipeline.create.send (0 : Nat)).through
        [.cls (transformBody id), .func (raiseBody (.user 7))]).thenReturn
      = some (.error .classWithoutNew) ∧
    PErr.classWithoutNew ≠ PErr.user 7 :=
  ⟨rfl, rfl, rfl, by decide⟩

/-- Claim C4 — code-bug evidence.  Advancing the dispatcher to an index
that is not strictly greater than the highest index reached does fail with
the double-invocation error (first conjunct, the guard at index 3 against
marker 5), and a function-shaped pipe that awaits its continuation and
calls it again rejects the run with exactly that error (the repository's
own test).  But the same double-calling body as a class-shaped pipe
rejects the run with the `TypeError` from calling the class without `new`
instead — the double-invocation error is swallowed by the dispatcher's
catch branch, contradicting the claim's "of either shape". -/
theorem C4_double_invocation :
    (dispatch ([] : List (Pipe Nat)) 3 5 5 = (.error .doubleInvocation, 5)) ∧
    ((Pipeline.create.send (0 : Nat)).through
        [.func twiceBody]).thenReturn = some (.error .doubleInvocation) ∧
    ((Pipeline.create.send (0 : Nat)).through
        [.cls twiceBody]).thenReturn = some (.error .classWithoutNew) ∧
    PErr.classWithoutNew ≠ PErr.doubleInvocation :=
  ⟨rfl, rfl, rfl, by decide⟩

/-- Claim C8: pipes run strictly in declared order (three marker-appending
pipes produce the markers in declaration order), and the mixed
function/class run of the spec's example `send(2).through([double, Square,
subtractOne])` applies 2 → 4 → 16 → 15 and yields 15, the same result as
the all-function and the all-class chain of the same transforms. -/
theorem C8_order_and_mixed_equivalence :
    ((Pipeline.create.send (2 : Nat)).through
        [.func (transformBody (· * 2)), .cls (transformBody (fun v => v * v)),
         .func (transformBody (· - 1))]).thenReturn = some (.ok 15) ∧
    ((Pipeline.create.send (2 : Nat)).through
        [.func (transformBody (· * 2)), .func (transformBody (fun v => v * v)),
         .func (transformBody (· - 1))]).thenReturn = some (.ok 15) ∧
    ((Pipeline.create.send (2 : Nat)).through
        [.cls (transformBody (· * 2)), .cls (transformBody (fun v => v * v)),
         .cls (transformBody (· - 1))]).thenReturn = some (.ok 15) ∧
    ((Pipeline.create.send ([] : List Nat)).through
        [.func (transformBody (· ++ [0])), .cls (transformBody (· ++ [1])),
         .func (transformBody (· ++ [2]))]).thenReturn = some (.ok [0, 1, 2]) :=
  ⟨rfl, rfl, rfl, rfl⟩

/-- Claim C2 — counterexample.  `make` of the string `"foo"` — unbound,
not constructible, not a factory, name-matched to nothing (the container
is empty) — throws the not-a-constructor `TypeError` from `new "foo"()`,
which is not the MissingDependency resolution error: the claim's "never
throws an error of a different kind" is false. -/
theorem C2_counterexample :
    (make cenv 5 Container.empty (.str "foo") [] 0).errOf = some .notAConstructor ∧
    CErr.notAConstructor.isMissingDep = false :=
  ⟨rfl, rfl⟩

/-- Claim C2 — amended.  Resolving an unbound, non-constructible,
non-factory identifier with no matching name or instance does fail, but
with the not-a-constructor `TypeError`, provided the text `build` scans —
the string itself, or the symbol's `toString()` text `"Symbol(desc)"` —
yields no parameter tokens (first two conjuncts); the MissingDependency
error naming the unresolved parameter arises only when an identifier is
demanded as a constructor parameter that is neither overridden nor
name-matched (third conjunct).  The proviso is genuinely needed: an
identifier whose scanned text itself looks like constructor source has
those tokens resolved as dependencies first, as the fourth conjunct
shows for the unbound, uncached `Symbol("constructor(a)")`, whose `make`
throws the missing-dependency error for `a`, not the `TypeError`. -/
theorem C2_amended :
    (∀ (env : Env) (fuel : Nat) (c : Container) (s : String)
       (params : List (String × Value)) (alloc : Nat),
       getParamNames s = [] →
       mget c.bindings (.str s) = none →
       mget c.instances (.str s) = none →
       make env (fuel + 1) c (.str s) params alloc = .err .notAConstructor c alloc) ∧
    (∀ (env : Env) (fuel : Nat) (c : Container) (n : Nat) (desc : String)
       (params : List (String × Value)) (alloc : Nat),
       getParamNames ("Symbol(" ++ desc ++ ")") = [] →
       mget c.bindings (.sym n desc) = none →
       mget c.instances (.sym n desc) = none →
       make env (fuel + 1) c (.sym n desc) params alloc = .err .notAConstructor c alloc) ∧
    (∀ (env : Env) (fuel : Nat) (c : Container) (cid : Nat) (name : String)
       (params : List (String × Value)) (alloc : Nat),
       getParamNames (env.classes cid).src = [name] →
       mget c.bindings (.cls cid) = none →
       mget c.instances (.cls cid) = none →
       pget params name = none →
       c.has (.str name) = false →
       make env (fuel + 1) c (.cls cid) params alloc
         = .err (.missingDep name 0 (env.classes cid).name) c alloc) ∧
    (make cenv 5 Container.empty (.sym 0 "constructor(a)") [] 0).errOf
      = some (.missingDep "a" 0 "undefined") := by
  refine ⟨?_, ?_, ?_, by decide⟩
  · intro env fuel c s params alloc hpn hbind hinst
    rw [make_succ_eq]
    simp only [hinst]
    have hgc : getConcrete c (.str s) = .str s := by simp [getConcrete, hbind]
    simp only [hgc]
    rw [if_pos (by simp [isBuildable])]
    simp [buildF, hpn, resolveDepsF, makeFinish]
  · intro env fuel c n desc params alloc hpn hbind hinst
    rw [make_succ_eq]
    simp only [hinst]
    have hgc : getConcrete c (.sym n desc) = .sym n desc := by simp [getConcrete, hbind]
    simp only [hgc]
    rw [if_pos (by simp [isBuildable])]
    simp [buildF, hpn, resolveDepsF, makeFinish]
  · intro env fuel c cid name params alloc hpn hbind hinst hov hhas
    rw [make_succ_eq]
    simp only [hinst]
    have hgc : getConcrete c (.cls cid) = .cls cid := by simp [getConcrete, hbind]
    simp only [hgc]
    rw [if_pos (by simp [isBuildable, Ident.isFunction])]
    simp [buildF, hpn, resolveDepsF, hov, hhas, makeFinish]

/-- Claim C2 — witness: the amended statement applied to the empty
container, at the string `"foo"`, at the symbol `Symbol("tag")` (whose
`toString()` carries no constructor text), and at the unbound class `Baz`
whose constructor demands the unresolvable parameter `bar`. -/
theorem C2_amended_witness :
    make cenv 1 Container.empty (.str "foo") [] 0
      = .err .notAConstructor Container.empty 0 ∧
    make cenv 1 Container.empty (.sym 0 "tag") [] 0
      = .err .notAConstructor Container.empty 0 ∧
    make cenv 1 Container.empty (.cls 1) [] 0
      = .err (.missingDep "bar" 0 "Baz") Container.empty 0 :=
  ⟨C2_amended.1 cenv 0 Container.empty "foo" [] 0 rfl rfl rfl,
   C2_amended.2.1 cenv 0 Container.empty 0 "tag" [] 0 rfl rfl rfl,
   C2_amended.2.2.1 cenv 0 Container.empty 1 "bar" [] 0 rfl rfl rfl rfl rfl⟩

/-- Claim C3 — counterexample.  For `class T { constructor(a, b) }` the
raw comma-split of the constructor source yields the token `" b"`
(leading space) for the second parameter, so although the container has a
binding under the true parameter name `"b"` (first conjunct), `make`
fails with a resolution error naming `" b"` (second conjunct); an
override supplied under `"b"` is ignored the same way (third conjunct);
only an override keyed by the raw token `" b"` is consulted (fourth
conjunct).  This falsifies the claim's per-parameter rule stated in terms
of the parameter's name. -/
theorem C3_counterexample :
    cBoundAB.has (.str "b") = true ∧
    (make cenv 10 cBoundAB (.cls 2) [] 0).errOf = some (.missingDep " b" 1 "T") ∧
    (make cenv 10 cBoundAB (.cls 2) [("b", .prim "X")] 0).errOf
      = some (.missingDep " b" 1 "T") ∧
    (make cenv 10 cBoundAB (.cls 2) [(" b", .prim "X")] 0).isOk = true :=
  ⟨rfl, rfl, rfl, rfl⟩

/-- Claim C3 — amended: the per-parameter rule holds with "the
parameter's name" replaced by "the raw comma-separated token of the
constructor source" (identical for a single or first parameter, but
including the leading whitespace for later parameters).  In token order:
if the overrides record supplies a value under the token, that value is
used verbatim and the container — universally quantified, so even one
with a binding for the token — is not consulted and left untouched except
for the resolved-set (first conjunct); else if `has(token)` holds, the
token is recursively resolved via `make` with no overrides (second
conjunct); else `make` fails with an error naming the token, its
position, and the owning class (third conjunct); values are passed to
the constructor in declaration order (fourth conjunct). -/
theorem C3_amended :
    (∀ (env : Env) (fuel : Nat) (c : Container) (cid : Nat) (name : String)
       (params : List (String × Value)) (alloc : Nat) (v : Value),
       getParamNames (env.classes cid).src = [name] →
       mget c.bindings (.cls cid) = none →
       mget c.instances (.cls cid) = none →
       pget params name = some v →
       make env (fuel + 1) c (.cls cid) params alloc
         = .ok (.obj cid alloc [v])
             { c with resolved := sadd c.resolved (.cls cid) } (alloc + 1)) ∧
    (∀ (env : Env) (fuel : Nat) (c : Container) (cid : Nat) (name : String)
       (params : List (String × Value)) (alloc : Nat),
       getParamNames (env.classes cid).src = [name] →
       mget c.bindings (.cls cid) = none →
       mget c.instances (.cls cid) = none →
       pget params name = none →
       c.has (.str name) = true →
       make env (fuel + 1) c (.cls cid) params alloc
         = (match make env fuel c (.str name) [] alloc with
            | .ok w c' a' =>
              .ok (.obj cid a' [w])
                { c' with resolved := sadd c'.resolved (.cls cid) } (a' + 1)
            | .err e c' a' => .err e c' a'
            | .fuelOut => .fuelOut)) ∧
    (∀ (env : Env) (fuel : Nat) (c : Container) (cid : Nat) (name : String)
       (params : List (String × Value)) (alloc : Nat),
       getParamNames (env.classes cid).src = [name] →
       mget c.bindings (.cls cid) = none →
       mget c.instances (.cls cid) = none →
       pget params name = none →
       c.has (.str name) = false →
       make env (fuel + 1) c (.cls cid) params alloc
         = .err (.missingDep name 0 (env.classes cid).name) c alloc) ∧
    (∀ (env : Env) (fuel : Nat) (c : Container) (cid : Nat) (n₁ n₂ : String)
       (params : List (String × Value)) (alloc : Nat) (v₁ v₂ : Value),
       getParamNames (env.classes cid).src = [n₁, n₂] →
       mget c.bindings (.cls cid) = none →
       mget c.instances (.cls cid) = none →
       pget params n₁ = some v₁ →
       pget params n₂ = some v₂ →
       make env (fuel + 1) c (.cls cid) params alloc
         = .ok (.obj cid alloc [v₁, v₂])
             { c with resolved := sadd c.resolved (.cls cid) } (alloc + 1)) := by
  refine ⟨?_, ?_, ?_, ?_⟩
  · intro env fuel c cid name params alloc v hpn hbind hinst hov
    rw [make_succ_eq]
    simp only [hinst]
    have hgc : getConcrete c (.cls cid) = .cls cid := by simp [getConcrete, hbind]
    simp only [hgc]
    rw [if_pos (by simp [isBuildable, Ident.isFunction])]
    have hsh : c.isShared (.cls cid) = false := by simp [Container.isShared, hbind]
    simp [buildF, hpn, resolveDepsF, hov, makeFinish, hsh]
  · intro env fuel c cid name params alloc hpn hbind hinst hov hhas
    rw [make_succ_eq]
    simp only [hinst]
    have hgc : getConcrete c (.cls cid) = .cls cid := by simp [getConcrete, hbind]
    simp only [hgc]
    rw [if_pos (by simp [isBuildable, Ident.isFunction])]
    simp only [buildF, hpn, resolveDepsF, hov, hhas, if_true]
    cases hmk : make env fuel c (.str name) [] alloc with
    | ok w c' a' =>
      have hb' : c'.bindings = c.bindings :=
        (make_preserved env fuel c (.str name) [] alloc c' (by rw [hmk]; rfl)).1
      have hsh' : c'.isShared (.cls cid) = false := by
        simp [Container.isShared, hb', hbind]
      simp [makeFinish, hsh']
    | err e c' a' => simp [makeFinish]
    | fuelOut => simp [makeFinish]
  · intro env fuel c cid name params alloc hpn hbind hinst hov hhas
    rw [make_succ_eq]
    simp only [hinst]
    have hgc : getConcrete c (.cls cid) = .cls cid := by simp [getConcrete, hbind]
    simp only [hgc]
    rw [if_pos (by simp [isBuildable, Ident.isFunction])]
    simp [buildF, hpn, resolveDepsF, hov, hhas, makeFinish]
  · intro env fuel c cid n₁ n₂ params alloc v₁ v₂ hpn hbind hinst hov₁ hov₂
    rw [make_succ_eq]
    simp only [hinst]
    have hgc : getConcrete c (.cls cid) = .cls cid := by simp [getConcrete, hbind]
    simp only [hgc]
    rw [if_pos (by simp [isBuildable, Ident.isFunction])]
    have hsh : c.isShared (.cls cid) = false := by simp [Container.isShared, hbind]
    simp [buildF, hpn, resolveDepsF, hov₁, hov₂, makeFinish, hsh]

/-- Claim C3 — witness: the amended statement applied to `Baz` with an
override for `bar` (used verbatim, no consultation), and to `Baz` with
`bar` bound to the `'hello'` factory (resolved recursively via `make`). -/
theorem C3_amended_witness :
    make cenv 1 Container.empty (.cls 1) [("bar", .prim "Nova")] 0
      = .ok (.obj 1 0 [.prim "Nova"]) ⟨[.cls 1], [], [], []⟩ 1 ∧
    make cenv 2 (Container.empty.bind (.str "bar") (.fn 0) false) (.cls 1) [] 0
      = .ok (.obj 1 0 [.prim "hello"])
          ⟨[.str "bar", .cls 1], [((.str "bar"), ⟨.fn 0, false⟩)], [], []⟩ 1 :=
  ⟨C3_amended.1 cenv 0 Container.empty 1 "bar" [("bar", .prim "Nova")] 0 (.prim "Nova")
      rfl rfl rfl rfl,
   (C3_amended.2.1 cenv 1 (Container.empty.bind (.str "bar") (.fn 0) false) 1 "bar"
      [] 0 rfl rfl rfl rfl rfl).trans (by decide)⟩

/-- Claim C5 — counterexample.  `make` of `class C { constructor(dep,
missing) }` with `dep` bound shared fails on the second parameter, yet
the failing call has added a cache entry for `dep` that was not there
before: the instances map is **not** unchanged by the failing call. -/
theorem C5_counterexample :
    (make cenv 10 cSharedDep (.cls 3) [] 0).errOf = some (.missingDep " missing" 1 "C") ∧
    mget cSharedDep.instances (.str "dep") = none ∧
    (make cenv 10 cSharedDep (.cls 3) [] 0).instAt (.str "dep") = some (.prim "hello") :=
  ⟨rfl, rfl, rfl⟩

/-- Claim C5 — amended.  When `make` throws, the bindings table is
untouched and every cache entry that existed before the call is still
present with the same value — the failure removes or overwrites nothing
(first conjunct); and the failing call creates no cache entry for the
requested identifier itself whenever no dependency chain of the bindings
table leads from that identifier back to itself (second conjunct) —
re-entrant self-resolution, the one path by which a failing call could
touch its own entry, never completes (it exhausts any fuel, as claim
C10's divergence instance shows).  Per the counterexample, entries for
nested shared dependencies resolved before the failure do remain. -/
theorem C5_amended :
    (∀ (env : Env) (fuel : Nat) (c : Container) (x : Ident)
       (params : List (String × Value)) (alloc : Nat) (e : CErr) (c' : Container) (a' : Nat),
       make env fuel c x params alloc = .err e c' a' →
       c'.bindings = c.bindings ∧
       (∀ k v, mget c.instances k = some v → mget c'.instances k = some v)) ∧
    (∀ (env : Env) (fuel : Nat) (c : Container) (x : Ident)
       (params : List (String × Value)) (alloc : Nat) (e : CErr) (c' : Container) (a' : Nat),
       (∀ t, DepEdge env c.bindings t x →
          ¬ Relation.ReflTransGen (Calls env c.bindings) t x) →
       mget c.instances x = none →
       make env fuel c x params alloc = .err e c' a' →
       mget c'.instances x = none) := by
  constructor
  · intro env fuel c x params alloc e c' a' h
    have hp := make_preserved env fuel c x params alloc c' (by rw [h]; rfl)
    exact ⟨hp.1, hp.2.2.1⟩
  · intro env fuel c x params alloc e c' a' hnc hinst h
    cases fuel with
    | zero => exact Res.noConfusion h
    | succ fuel =>
      rw [make_succ_eq] at h
      simp only [hinst] at h
      have hgcB : getConcrete c x = (match mget c.bindings x with
          | some b => b.value
          | none => x) := by
        simp only [getConcrete]
      by_cases hbd : isBuildable (getConcrete c x) x = true
      · rw [if_pos hbd] at h
        have hdeps : directDeps env c.bindings x
            = (buildTokens env (getConcrete c x)).map .str := by
          simp only [directDeps]
          rw [← hgcB]
          simp [hbd]
        have htok : ∀ n ∈ buildTokens env (getConcrete c x),
            ¬ Relation.ReflTransGen (Calls env c.bindings) (.str n) x := by
          intro n hn
          refine hnc (.str n) ?_
          show Ident.str n ∈ directDeps env c.bindings x
          rw [hdeps]
          exact List.mem_map_of_mem _ hn
        cases hr : buildF env (make env fuel) c (getConcrete c x) params alloc with
        | ok v c₀ a₀ =>
          rw [hr, makeFinish_ok] at h
          exact Res.noConfusion h
        | fuelOut =>
          rw [hr] at h
          exact Res.noConfusion h
        | err e₀ c₀ a₀ =>
          rw [hr, makeFinish_err] at h
          obtain ⟨_, hc, _⟩ := Res.err.inj h
          rw [← hc]
          exact (buildF_untouched env c.bindings x (make env fuel)
            (make_preserved env fuel)
            (fun c₁ z p a₁ hB₁ hnr₁ => make_untouched env c.bindings x fuel c₁ z p a₁ hB₁ hnr₁)
            c (getConcrete c x) params alloc rfl htok c₀ (by rw [hr]; rfl)).trans hinst
      · simp only [Bool.not_eq_true] at hbd
        rw [if_neg (by rw [hbd]; simp)] at h
        have hdeps : directDeps env c.bindings x = [getConcrete c x] := by
          simp only [directDeps]
          rw [← hgcB]
          simp [hbd]
        have hnr' : ¬ Relation.ReflTransGen (Calls env c.bindings) (getConcrete c x) x := by
          refine hnc (getConcrete c x) ?_
          show getConcrete c x ∈ directDeps env c.bindings x
          rw [hdeps]
          exact List.mem_singleton_self _
        cases hr : make env fuel c (getConcrete c x) [] alloc with
        | ok v c₀ a₀ =>
          rw [hr, makeFinish_ok] at h
          exact Res.noConfusion h
        | fuelOut =>
          rw [hr] at h
          exact Res.noConfusion h
        | err e₀ c₀ a₀ =>
          rw [hr, makeFinish_err] at h
          obtain ⟨_, hc, _⟩ := Res.err.inj h
          rw [← hc]
          exact (make_untouched env c.bindings x fuel c (getConcrete c x) [] alloc rfl
            hnr' c₀ (by rw [hr]; rfl)).trans hinst

/-- Claim C5 — witness: the amended statement applied to the failing
`make` of `C` — first over a container that already cached `'keep'`,
whose entry survives the failure unchanged; then over the plain
counterexample container, where the failing call leaves no entry for the
requested class `C` itself (its dependency tokens `dep` and `missing`
have no chains leading back to it). -/
theorem C5_amended_witness :
    mget (⟨[.str "keep", .str "dep"],
           [((.str "dep"), ⟨.fn 0, true⟩)],
           [((.str "keep"), .prim "K"), ((.str "dep"), .prim "hello")], []⟩ :
          Container).instances (.str "keep") = some (.prim "K") ∧
    mget (⟨[.str "dep"], [((.str "dep"), ⟨.fn 0, true⟩)],
           [((.str "dep"), .prim "hello")], []⟩ :
          Container).instances (.cls 3) = none := by
  constructor
  · exact (C5_amended.1 cenv 10 (cSharedDep.instanceReg (.str "keep") (.prim "K")) (.cls 3) [] 0
      (.missingDep " missing" 1 "C")
      ⟨[.str "keep", .str "dep"],
       [((.str "dep"), ⟨.fn 0, true⟩)],
       [((.str "keep"), .prim "K"), ((.str "dep"), .prim "hello")], []⟩
      0 (by decide)).2 (.str "keep") (.prim "K") rfl
  · refine C5_amended.2 cenv 10 cSharedDep (.cls 3) [] 0 (.missingDep " missing" 1 "C")
      ⟨[.str "dep"], [((.str "dep"), ⟨.fn 0, true⟩)],
       [((.str "dep"), .prim "hello")], []⟩ 0 ?_ rfl (by decide)
    intro t ht hreach
    have hdd : directDeps cenv cSharedDep.bindings (.cls 3)
        = [.str "dep", .str " missing"] := by decide
    have ht' : t ∈ directDeps cenv cSharedDep.bindings (.cls 3) := ht
    rw [hdd] at ht'
    rcases List.mem_cons.mp ht' with h1 | h2
    · subst h1
      rcases Relation.ReflTransGen.cases_head hreach with heq | ⟨u, hcall, _⟩
      · exact absurd heq (by decide)
      · have hu : u ∈ directDeps cenv cSharedDep.bindings (.str "dep") := hcall
        rw [show directDeps cenv cSharedDep.bindings (.str "dep") = [] from by decide] at hu
        exact absurd hu (List.not_mem_nil u)
    · have h2' : t = .str " missing" := by
        rcases List.mem_cons.mp h2 with h3 | h4
        · exact h3
        · exact absurd h4 (List.not_mem_nil t)
      subst h2'
      rcases Relation.ReflTransGen.cases_head hreach with heq | ⟨u, hcall, _⟩
      · exact absurd heq (by decide)
      · have hu : u ∈ directDeps cenv cSharedDep.bindings (.str " missing") := hcall
        rw [show directDeps cenv cSharedDep.bindings (.str " missing") = [] from by decide] at hu
        exact absurd hu (List.not_mem_nil u)

/-- Claim C6: once the cache holds `v` for `x`, `make` of `x` returns
exactly `v` with the container and allocation counter untouched (no
construction), whatever the overrides; re-binding `x` does not touch the
entry, and `make` after the re-bind still returns the cached `v`
untouched; no operation clears the entry (`instance` re-registration can
replace it but leaves it present); and no `make` of any identifier
whatsoever removes or changes the entry. -/
theorem C6_cached_instance_stable (env : Env) (fuel : Nat) (c : Container) (x : Ident)
    (params : List (String × Value)) (alloc : Nat) (v : Value)
    (hv : mget c.instances x = some v) :
    make env (fuel + 1) c x params alloc = .ok v c alloc ∧
    (∀ y pr sh, mget (c.bind y pr sh).instances x = some v) ∧
    (∀ (fuel' : Nat) (pr : Ident) (sh : Bool) (params' : List (String × Value)) (alloc' : Nat),
       make env (fuel' + 1) (c.bind x pr sh) x params' alloc'
         = .ok v (c.bind x pr sh) alloc') ∧
    (∀ y w, (mget (c.instanceReg y w).instances x).isSome = true) ∧
    (∀ (fuel' : Nat) (y : Ident) (params' : List (String × Value)) (alloc' : Nat)
       (c₂ : Container),
       (make env fuel' c y params' alloc').cstate = some c₂ →
       mget c₂.instances x = some v) := by
  refine ⟨?_, ?_, ?_, ?_, ?_⟩
  · rw [make_succ_eq]
    simp [hv]
  · intro y pr sh
    exact hv
  · intro fuel' pr sh params' alloc'
    rw [make_succ_eq]
    have : mget (c.bind x pr sh).instances x = some v := hv
    simp [this]
  · intro y w
    by_cases hxy : y = x
    · subst hxy
      simp [Container.instanceReg, mget_mset_self]
    · simp [Container.instanceReg, mget_mset_ne _ _ _ _ hxy, hv]
  · intro fuel' y params' alloc' c₂ h
    exact (make_preserved env fuel' c y params' alloc' c₂ h).2.2.1 x v hv

/-- Claim C6 — witness: the cached `'X'` for `Foo` is returned untouched,
and still after re-binding `Foo` to a factory. -/
theorem C6_witness :
    make cenv 1 (Container.empty.instanceReg (.cls 0) (.prim "X")) (.cls 0) [] 0
      = .ok (.prim "X") (Container.empty.instanceReg (.cls 0) (.prim "X")) 0 ∧
    make cenv 1 ((Container.empty.instanceReg (.cls 0) (.prim "X")).bind (.cls 0) (.fn 0) false)
        (.cls 0) [] 0
      = .ok (.prim "X")
          ((Container.empty.instanceReg (.cls 0) (.prim "X")).bind (.cls 0) (.fn 0) false) 0 :=
  ⟨(C6_cached_instance_stable cenv 0 (Container.empty.instanceReg (.cls 0) (.prim "X"))
      (.cls 0) [] 0 (.prim "X") rfl).1,
   (C6_cached_instance_stable cenv 0 (Container.empty.instanceReg (.cls 0) (.prim "X"))
      (.cls 0) [] 0 (.prim "X") rfl).2.2.1 0 (.fn 0) false [] 0⟩

/-- Claim C7: a successful `make` of a shared identifier caches the
object, so a second `make` returns the identical object with no further
work (first conjunct); for an identifier bound non-shared to a class, two
successive successful `make` calls return objects with distinct
allocation numbers — distinct objects (second conjunct); likewise for an
identifier bound non-shared to a factory that allocates fresh objects,
the claim's own exception for producers returning a shared value (third
conjunct). -/
theorem C7_shared_identity_nonshared_distinct :
    (∀ (env : Env) (fuel g : Nat) (c : Container) (x : Ident)
       (params params₂ : List (String × Value)) (alloc : Nat)
       (v : Value) (c₁ : Container) (a₁ : Nat),
       c.isShared x = true →
       make env fuel c x params alloc = .ok v c₁ a₁ →
       make env (g + 1) c₁ x params₂ a₁ = .ok v c₁ a₁) ∧
    (∀ (env : Env) (f₁ f₂ : Nat) (c : Container) (x : Ident) (cid : Nat)
       (p₁ p₂ : List (String × Value)) (alloc : Nat)
       (v₁ : Value) (c₁ : Container) (a₁ : Nat)
       (v₂ : Value) (c₂ : Container) (a₂ : Nat),
       EnvMono env →
       mget c.bindings x = some ⟨.cls cid, false⟩ →
       mget c.instances x = none →
       make env f₁ c x p₁ alloc = .ok v₁ c₁ a₁ →
       make env f₂ c₁ x p₂ a₁ = .ok v₂ c₂ a₂ →
       v₁ ≠ v₂) ∧
    (∀ (env : Env) (f₁ f₂ : Nat) (c : Container) (x : Ident) (fid : Nat)
       (p₁ p₂ : List (String × Value)) (alloc : Nat)
       (v₁ : Value) (c₁ : Container) (a₁ : Nat)
       (v₂ : Value) (c₂ : Container) (a₂ : Nat),
       FreshFactory env fid →
       mget c.bindings x = some ⟨.fn fid, false⟩ →
       mget c.instances x = none →
       make env f₁ c x p₁ alloc = .ok v₁ c₁ a₁ →
       make env f₂ c₁ x p₂ a₁ = .ok v₂ c₂ a₂ →
       v₁ ≠ v₂) := by
  refine ⟨?_, ?_, ?_⟩
  · intro env fuel g c x params params₂ alloc v c₁ a₁ hsh h
    have hc := make_ok_shared_cached env fuel c x params alloc v c₁ a₁ hsh h
    rw [make_succ_eq]
    simp [hc]
  · intro env f₁ f₂ c x cid p₁ p₂ alloc v₁ c₁ a₁ v₂ c₂ a₂ henv hbind hinst h₁ h₂
    obtain ⟨deps₁, ad₁, hv₁, _, hlt₁, hb₁, hi₁⟩ :=
      make_ok_class_nonshared_shape env henv f₁ c x cid p₁ alloc v₁ c₁ a₁ hbind hinst h₁
    have hbind₁ : mget c₁.bindings x = some ⟨.cls cid, false⟩ := by
      rw [hb₁]; exact hbind
    obtain ⟨deps₂, ad₂, hv₂, hge₂, _, _, _⟩ :=
      make_ok_class_nonshared_shape env henv f₂ c₁ x cid p₂ a₁ v₂ c₂ a₂ hbind₁ hi₁ h₂
    intro heq
    rw [hv₁, hv₂] at heq
    have : ad₁ = ad₂ := (Value.obj.inj heq).2.1
    omega
  · intro env f₁ f₂ c x fid p₁ p₂ alloc v₁ c₁ a₁ v₂ c₂ a₂ hfr hbind hinst h₁ h₂
    obtain ⟨m₁, hv₁, _, hlt₁, hb₁, hi₁⟩ :=
      make_ok_fresh_factory_shape env f₁ c x fid p₁ alloc v₁ c₁ a₁ hfr hbind hinst h₁
    have hbind₁ : mget c₁.bindings x = some ⟨.fn fid, false⟩ := by
      rw [hb₁]; exact hbind
    obtain ⟨m₂, hv₂, hge₂, _, _, _⟩ :=
      make_ok_fresh_factory_shape env f₂ c₁ x fid p₂ a₁ v₂ c₂ a₂ hfr hbind₁ hi₁ h₂
    intro heq
    rw [hv₁, hv₂] at heq
    have : m₁ = m₂ := Value.fac.inj heq
    omega

/-- The factory catalogue of `cenv` never rewinds the allocation counter. -/
theorem cenv_mono : EnvMono cenv := by
  intro f n
  cases f with
  | zero => simp [cenv]
  | succ m => simp [cenv]

/-- Every non-zero factory of `cenv` allocates a fresh object per call. -/
theorem cenv_fresh_factory_one : FreshFactory cenv 1 :=
  fun n => ⟨n, n + 1, rfl, Nat.le_refl n, Nat.lt_succ_self n⟩

/-- Claim C7 — witness: the shared binding of `Foo` returns the cached
object on the second call; the non-shared class binding yields two
distinct objects; the non-shared fresh factory yields two distinct
objects. -/
theorem C7_witness :
    make cenv 1
        (⟨[.cls 0], [((.cls 0), ⟨.cls 0, true⟩)], [((.cls 0), .obj 0 0 [])], []⟩ : Container)
        (.cls 0) [] 1
      = .ok (.obj 0 0 [])
          (⟨[.cls 0], [((.cls 0), ⟨.cls 0, true⟩)], [((.cls 0), .obj 0 0 [])], []⟩ : Container)
          1 ∧
    Value.obj 0 0 [] ≠ Value.obj 0 1 [] ∧
    Value.fac 0 ≠ Value.fac 1 :=
  ⟨C7_shared_identity_nonshared_distinct.1 cenv 5 0
      (Container.empty.bind (.cls 0) (.cls 0) true) (.cls 0) [] [] 0
      (.obj 0 0 [])
      (⟨[.cls 0], [((.cls 0), ⟨.cls 0, true⟩)], [((.cls 0), .obj 0 0 [])], []⟩ : Container)
      1 rfl (by decide),
   C7_shared_identity_nonshared_distinct.2.1 cenv 5 5
      (Container.empty.bind (.cls 0) (.cls 0) false) (.cls 0) 0 [] [] 0
      (.obj 0 0 [])
      (⟨[.cls 0], [((.cls 0), ⟨.cls 0, false⟩)], [], []⟩ : Container) 1
      (.obj 0 1 [])
      (⟨[.cls 0], [((.cls 0), ⟨.cls 0, false⟩)], [], []⟩ : Container) 2
      cenv_mono rfl rfl (by decide) (by decide),
   C7_shared_identity_nonshared_distinct.2.2 cenv 5 5
      (Container.empty.bind (.str "fr") (.fn 1) false) (.str "fr") 1 [] [] 0
      (.fac 0)
      (⟨[.str "fr"], [((.str "fr"), ⟨.fn 1, false⟩)], [], []⟩ : Container) 1
      (.fac 1)
      (⟨[.str "fr"], [((.str "fr"), ⟨.fn 1, false⟩)], [], []⟩ : Container) 2
      cenv_fresh_factory_one rfl rfl (by decide) (by decide)⟩

/-- Claim C9 — counterexample.  `Baz` has a non-shared binding and no
cached instance, its dependency `'bar'` is bound shared; the successful
`make` of `Baz` adds a cache entry for `'bar'`, so the instances map is
**not** exactly unchanged by the call. -/
theorem C9_counterexample :
    (make cenv 10 cSharedBar (.cls 1) [] 0).isOk = true ∧
    cSharedBar.isShared (.cls 1) = false ∧
    mget cSharedBar.instances (.str "bar") = none ∧
    (make cenv 10 cSharedBar (.cls 1) [] 0).instAt (.str "bar") = some (.prim "hello") :=
  ⟨rfl, rfl, rfl, rfl⟩

/-- Claim C9 — amended.  A successful `make` of an identifier with a
non-shared binding and no cached instance leaves the bindings map exactly
unchanged, adds no instances entry for the identifier itself — indeed the
instances entry of every identifier not marked shared is exactly
unchanged — and `has(identifier)` is the same before and after; however
(per the counterexample) nested shared dependencies may have been
cached, so the instances map as a whole need not be unchanged. -/
theorem C9_amended (env : Env) (fuel : Nat) (c : Container) (x pr : Ident)
    (params : List (String × Value)) (alloc : Nat) (v : Value) (c' : Container) (a' : Nat)
    (hbind : mget c.bindings x = some ⟨pr, false⟩)
    (hinst : mget c.instances x = none)
    (h : make env fuel c x params alloc = .ok v c' a') :
    c'.bindings = c.bindings ∧
    mget c'.instances x = none ∧
    (∀ k, c.isShared k = false → mget c'.instances k = mget c.instances k) ∧
    c'.has x = c.has x := by
  have hp := make_preserved env fuel c x params alloc c' (by rw [h]; rfl)
  have hsh : c.isShared x = false := by simp [Container.isShared, hbind]
  refine ⟨hp.1, (hp.2.2.2 x hsh).trans hinst, hp.2.2.2, ?_⟩
  simp [Container.has, hp.1, hp.2.2.2 x hsh]

/-- Claim C9 — witness: the amended statement applied to the successful
`make` of `Baz` in the counterexample container. -/
theorem C9_amended_witness :
    (⟨[.str "bar", .cls 1],
      cSharedBar.bindings,
      [((.str "bar"), .prim "hello")], []⟩ : Container).bindings = cSharedBar.bindings ∧
    mget (⟨[.str "bar", .cls 1],
           cSharedBar.bindings,
           [((.str "bar"), .prim "hello")], []⟩ : Container).instances (.cls 1) = none :=
  ⟨(C9_amended cenv 10 cSharedBar (.cls 1) (.cls 1) [] 0
      (.obj 1 0 [.prim "hello"])
      ⟨[.str "bar", .cls 1], cSharedBar.bindings, [((.str "bar"), .prim "hello")], []⟩
      1 rfl rfl (by decide)).1,
   (C9_amended cenv 10 cSharedBar (.cls 1) (.cls 1) [] 0
      (.obj 1 0 [.prim "hello"])
      ⟨[.str "bar", .cls 1], cSharedBar.bindings, [((.str "bar"), .prim "hello")], []⟩
      1 rfl rfl (by decide)).2.1⟩

/-- Claim C10: whenever the direct-dependency relation induced by the
bindings table (an identifier depends on its bound alias, and on the
identifiers equal to its constructor parameter tokens) is well-founded at
the requested identifier, `make` reaches an outcome with enough fuel
(first conjunct); the container performs no cycle detection — the
`buildStack` field is never written, staying exactly as it was through
every `make` outcome (second conjunct); and without the acyclicity
precondition termination indeed fails: with `'a'` bound to
`class A { constructor(a) }`, `make('a')` exhausts every fuel (third
conjunct). -/
theorem C10_termination_under_acyclicity :
    (∀ (env : Env) (c : Container) (x : Ident) (params : List (String × Value)) (alloc : Nat),
       Acc (DepEdge env c.bindings) x →
       ∃ fuel, make env fuel c x params alloc ≠ .fuelOut) ∧
    (∀ (env : Env) (fuel : Nat) (c : Container) (x : Ident)
       (params : List (String × Value)) (alloc : Nat) (c' : Container),
       (make env fuel c x params alloc).cstate = some c' → c'.buildStack = c.buildStack) ∧
    (∀ (fuel alloc : Nat), make cenv fuel cCyclic (.str "a") [] alloc = .fuelOut) :=
  ⟨fun env c x params alloc hacc =>
     make_terminates_of_acc env c.bindings x hacc c params alloc rfl,
   fun env fuel c x params alloc c' h =>
     (make_preserved env fuel c x params alloc c' h).2.1,
   make_cyclic_diverges⟩

/-- Claim C10 — witness: the unbound string `"foo"` has no direct
dependencies at all, so the relation is trivially well-founded at it and
`make` terminates. -/
theorem C10_witness :
    ∃ fuel, make cenv fuel Container.empty (.str "foo") [] 0 ≠ .fuelOut :=
  C10_termination_under_acyclicity.1 cenv Container.empty (.str "foo") [] 0
    (Acc.intro _ (fun y hy => by
      have hy' : y ∈ directDeps cenv Container.empty.bindings (.str "foo") := hy
      have hdd : directDeps cenv Container.empty.bindings (.str "foo") = [] := by decide
      rw [hdd] at hy'
      exact absurd hy' (List.not_mem_nil y)))

end Nova
